import Mathlib

set_option maxHeartbeats 1000000
set_option maxRecDepth 8192

namespace RawDb

/-!
Shallow embedding of `RawDatabaseImpl` (qTox encrypted history store,
`src/persistence/db/rawdatabaseimpl.cpp`).

External effects (sqlite3/SQLCipher engine calls, the filesystem, logging)
are modelled by explicit oracles recording the outcome of each call; the
control flow of every modelled function is translated statement by
statement from the C++ source.
-/

/-- Query of a transaction. The C++ `RawDatabase::Query` stores one text
blob which `sqlite3_prepare_v2` splits into successive statements; we model
the query directly as its list of statements. Parameter blobs and callbacks
are not needed by the verified claims. -/
structure Query where
  stmts : List String
  deriving DecidableEq

/-- Engine oracle for statement execution: `compile s` is the outcome of
the `sqlite3_prepare_v2` + `sqlite3_bind_blob` phase for statement `s`
(`false` covers compile errors, missing parameters and bind errors);
`step s` is `true` when stepping `s` runs to `SQLITE_DONE` and `false`
when it ends in an error result. -/
structure Engine where
  compile : String → Bool
  step : String → Bool

/-- Execution of one query inside `compileAndExecute`: first every
statement of the query is compiled and bound (an error there returns
before anything of this query is stepped), then the statements are stepped
in order, stopping at the first step error. Returns the list of statements
that ran to completion and whether the whole query succeeded. -/
def runQuery (e : Engine) (q : Query) : List String × Bool :=
  if q.stmts.all e.compile then
    (q.stmts.takeWhile e.step, q.stmts.all e.step)
  else ([], false)

/-- Main loop of `compileAndExecute` over the queries of a transaction:
queries run in order, and the first failing query aborts the remainder of
the transaction (the early `return`s in the C++ loop). -/
def runQueries (e : Engine) : List Query → List String × Bool
  | [] => ([], true)
  | q :: rest =>
    let r := runQuery e q
    if r.2 then
      let r2 := runQueries e rest
      (r.1 ++ r2.1, r2.2)
    else (r.1, false)

/-- Wrapping query prepended by `compileAndExecute` for multi-query transactions. -/
def beginQuery : Query := ⟨["BEGIN;"]⟩

/-- Wrapping query appended by `compileAndExecute` for multi-query transactions. -/
def commitQuery : Query := ⟨["COMMIT;"]⟩

/-- Transaction-command wrapping step of `compileAndExecute`:
`if (trans.queries.size() > 1)` a `BEGIN;` query is inserted at the front
and a `COMMIT;` query appended at the back, otherwise the query list is
left untouched. -/
def addTransactionCommands (qs : List Query) : List Query :=
  if 1 < qs.length then beginQuery :: (qs ++ [commitQuery]) else qs

/-- Model of `RawDatabaseImpl::compileAndExecute`: the shared success flag
is stored `false` on entry and stored `true` only after every query of the
(wrapped) transaction has completed; the returned `Bool` is the final
value of that flag, and the returned list collects the statements that
were executed to completion, in order. -/
def compileAndExecute (e : Engine) (qs : List Query) : List String × Bool :=
  runQueries e (addTransactionCommands qs)

/-- Model of the synchronous submission path `RawDatabaseImpl::execNow`:
if the database is not open it returns `false` immediately; otherwise the
transaction is queued, the worker runs `compileAndExecute` on it, and the
final value of the shared success flag is returned. -/
def execNow (e : Engine) (sqliteOpen : Bool) (qs : List Query) : Bool :=
  if sqliteOpen then (compileAndExecute e qs).2 else false

/-- Cipher parameter generations of the encryption layer. Modelled from
the spec: the declaration of `RawDatabase::SqlCipherParams` lives in a
header that is not part of the source tree; the spec fixes an ordered
enumeration {original, partially-upgraded, current}, matching the uses
`static_cast<int>(SqlCipherParams::p3_0)` as the lowest value and the
upward iteration toward `newParams` in `readSavedCipherParams`. -/
inductive SqlCipherParams
  | p3_0
  | halfUpgradedTo4
  | p4_0
  deriving DecidableEq

/-- Integer value of a generation, as used by the `static_cast<int>` scans. -/
def SqlCipherParams.toNat : SqlCipherParams → Nat
  | .p3_0 => 0
  | .halfUpgradedTo4 => 1
  | .p4_0 => 2

/-- Inverse of `SqlCipherParams.toNat` (the `static_cast<SqlCipherParams>(i)` casts). -/
def SqlCipherParams.fromNat : Nat → SqlCipherParams
  | 0 => .p3_0
  | 1 => .halfUpgradedTo4
  | _ => .p4_0

/-- Model of `cipherVersion.split('.')[0]`: the characters before the
first dot (Qt keeps empty parts, so an empty or dot-initial string yields
the empty first piece). -/
def qtSplitHeadDot (s : String) : String :=
  ⟨s.data.takeWhile fun c => c ≠ '.'⟩

/-- Numeric value of a decimal digit character. -/
def digitVal (c : Char) : Nat := c.toNat - '0'.toNat

/-- Value of a list of decimal digit characters. -/
def decDigitsToNat (l : List Char) : Nat := l.foldl (fun a c => a * 10 + digitVal c) 0

/-- Model of `QString::toInt`: an optional sign followed by decimal digits
parses to the signed value; any other input (including the empty string)
yields 0. -/
def qtToInt (s : String) : Int :=
  match s.data with
  | [] => 0
  | '-' :: rest =>
    if rest.all Char.isDigit && !rest.isEmpty then -(decDigitsToNat rest : Int) else 0
  | '+' :: rest =>
    if rest.all Char.isDigit && !rest.isEmpty then (decDigitsToNat rest : Int) else 0
  | l => if l.all Char.isDigit then (decDigitsToNat l : Int) else 0

/-- Major version parsed from the engine's reported cipher version string,
as computed by `cipherVersion.split('.')[0].toInt()`. -/
def majorCipherVersion (cipherVersion : String) : Int :=
  qtToInt (qtSplitHeadDot cipherVersion)

/-- Model of `RawDatabaseImpl::highestSupportedParams`. The input is the
outcome of the `PRAGMA cipher_version` query: `none` when the `execNow`
fails, `some v` when it succeeds with reported version `v`. The second
component of the result records whether a critical failure was logged
(`qCritical`): the function falls back to returning `p3_0` both when the
version cannot be read and when the major version is neither 3 nor 4. -/
def highestSupportedParams (cipherVersionRead : Option String) : SqlCipherParams × Bool :=
  match cipherVersionRead with
  | none => (.p3_0, true)
  | some v =>
    let majorVersion := majorCipherVersion v
    if majorVersion = 3 then (.halfUpgradedTo4, false)
    else if majorVersion = 4 then (.p4_0, false)
    else (.p3_0, true)

/-- Outcomes of the engine calls made for probing generation `i` in
`readSavedCipherParams`: `setKeyOk i` is the result of the `setKey(hexKey)`
call of iteration `i`, `setParamsOk i` of `setCipherParameters(i)`, and
`testUsable i` of the trivial introspection query `testUsable()`. -/
structure ProbeOracle where
  setKeyOk : Nat → Bool
  setParamsOk : Nat → Bool
  testUsable : Nat → Bool

/-- Scan loop of `readSavedCipherParams`, iterating `fuel` generations
starting at `i`: a failing `setKey` or `setCipherParameters` breaks out of
the loop; a successful usability probe returns the current generation. -/
def probeFrom (o : ProbeOracle) : Nat → Nat → Option Nat
  | _, 0 => none
  | i, fuel + 1 =>
    if !o.setKeyOk i then none
    else if !o.setParamsOk i then none
    else if o.testUsable i then some i
    else probeFrom o (i + 1) fuel

/-- Model of `RawDatabaseImpl::readSavedCipherParams`: generations are
scanned from `p3_0` up to but excluding `newParams`; if the scan yields no
generation, a critical failure is logged (second component `true`) and the
function returns the fallback value `p3_0`. -/
def readSavedCipherParams (o : ProbeOracle) (newParams : SqlCipherParams) :
    SqlCipherParams × Bool :=
  match probeFrom o 0 newParams.toNat with
  | some i => (SqlCipherParams.fromNat i, false)
  | none => (.p3_0, true)

/-- Concrete probe oracle where applying the pragmas of generation 0
(`p3_0`) fails while every engine call made for generation 1
(`halfUpgradedTo4`) succeeds. -/
def breakingProbeOracle : ProbeOracle :=
  ⟨fun _ => true, fun i => i != 0, fun _ => true⟩

/-- Engine-mandated salt length (`TOX_PASS_SALT_LENGTH` of libtoxencryptsave). -/
def TOX_PASS_SALT_LENGTH : Nat := 32

/-- Modelled from the spec: the external `tox_pass_key_derive_with_salt`
primitive of libtoxencryptsave (not part of this repository) fills a
`Tox_Pass_Key` structure of 64 bytes — the salt followed by at least 256
bits of derived key material — deterministically from the password bytes
and the salt. The concrete mixing below is a stand-in for the real KDF;
the verified claims depend only on the output being 64 bytes, each below
256, computed deterministically. -/
def toxPassKeyDeriveWithSalt (passData salt : List Nat) : List Nat :=
  (List.range 64).map fun i =>
    (i * 131 + passData.foldl (fun a b => (a * 257 + b + 1) % 65521) 7 +
      salt.foldl (fun a b => (a * 263 + b + 1) % 65521) 11) % 256

/-- Byte sequence of a Qt string's UTF-8 data, abstracted as the character
code points (the verified claims depend only on its emptiness, which
agrees with emptiness of the Qt string). -/
def qStringUtf8 (s : String) : List Nat := s.data.map Char.toNat

/-- Lower-case hexadecimal digit for a value below 16, as produced by
`QByteArray::toHex`. -/
def hexDigit (n : Nat) : Char :=
  if n < 10 then Char.ofNat (48 + n) else Char.ofNat (97 + (n - 10))

/-- Two hex digits of one byte. -/
def byteToHex (b : Nat) : List Char := [hexDigit (b / 16), hexDigit (b % 16)]

/-- Model of `QByteArray::toHex` composed with `QString::fromUtf8`. -/
def hexEncode (l : List Nat) : String := ⟨l.flatMap byteToHex⟩

/-- Character test for the lower-case hexadecimal alphabet of `hexEncode`. -/
def isLowerHexChar (c : Char) : Bool := c.isDigit || ('a' ≤ c && c ≤ 'f')

/-- Model of the salted overload `RawDatabaseImpl::deriveKey(password,
salt)`: an empty password yields the empty key (open unencrypted); a salt
whose length is not `TOX_PASS_SALT_LENGTH` yields the empty key with a
warning; otherwise the second 32 bytes of the derived `Tox_Pass_Key` (the
bytes at offsets 32..63, skipping the leading salt field) are hex-encoded. -/
def deriveKey (password : String) (salt : List Nat) : String :=
  if password = "" then ""
  else if salt.length ≠ TOX_PASS_SALT_LENGTH then ""
  else hexEncode (((toxPassKeyDeriveWithSalt (qStringUtf8 password) salt).drop 32).take 32)

/-- Fixed legacy expansion constant `"L'ignorance est le pire des maux"`
(32 bytes; the apostrophe is code point 39). -/
def expandConstant : List Nat :=
  qStringUtf8 "L" ++ [39] ++ qStringUtf8 "ignorance est le pire des maux"

/-- Model of the deprecated unsalted overload
`RawDatabaseImpl::deriveKey(password)`: an empty password yields the empty
key; otherwise derivation runs with the fixed `expandConstant` in place of
a salt. -/
def deriveKeyLegacy (password : String) : String :=
  if password = "" then ""
  else
    hexEncode
      (((toxPassKeyDeriveWithSalt (qStringUtf8 password) expandConstant).drop 32).take 32)

/-- Apostrophe character (code point 39), written via its code point. -/
def apos : Char := Char.ofNat 39

/-- Character class `[A-F0-9]` of the public-key pattern. -/
def isKeyHexChar (c : Char) : Bool := c.isDigit || ('A' ≤ c && c ≤ 'F')

/-- Literal matcher: `matchLit lit l` consumes `lit` from the front of `l`
and returns the remainder, or fails. -/
def matchLit : List Char → List Char → Option (List Char)
  | [], l => some l
  | _ :: _, [] => none
  | a :: la, b :: lb => if b = a then matchLit la lb else none

/-- Counted character-class matcher `p{n}`: consumes exactly `n`
characters, each satisfying `p`. -/
def matchCountPred (p : Char → Bool) : Nat → List Char → Option (List Char)
  | 0, l => some l
  | _ + 1, [] => none
  | n + 1, c :: l => if p c then matchCountPred p n l else none

/-- Greedy repetition `p{5,}`: consumes the maximal run of characters
satisfying `p`, failing unless that run has length at least 5 (backtracking
cannot help the surrounding patterns here, since in both uses the next
pattern character cannot satisfy `p`). -/
def matchMin5Pred (p : Char → Bool) (l : List Char) : Option (List Char) :=
  if 5 ≤ (l.takeWhile p).length then some (l.dropWhile p) else none

/-- Matcher for the regex metacharacter `.`: consumes one character that
is not a newline. -/
def matchDotAt : List Char → Option (List Char)
  | [] => none
  | c :: l => if c = '\n' then none else some l

/-- Matcher for the regular expression `chat.public_key='[A-F0-9]{64}'`
anchored at the head of the list; the `.` matches any character except a
newline, and `'` is the apostrophe. -/
def matchPubKeyAt (l : List Char) : Option (List Char) :=
  (matchLit ("chat").data l).bind fun l1 =>
    (matchDotAt l1).bind fun l2 =>
      (matchLit (("public_key=").data ++ [apos]) l2).bind fun l3 =>
        (matchCountPred isKeyHexChar 64 l3).bind fun l4 =>
          matchLit [apos] l4

/-- Matcher for the regular expression
`timestamp BETWEEN \d{5,} AND \d{5,}` anchored at the head of the list. -/
def matchTimestampAt (l : List Char) : Option (List Char) :=
  (matchLit ("timestamp BETWEEN ").data l).bind fun l1 =>
    (matchMin5Pred Char.isDigit l1).bind fun l2 =>
      (matchLit (" AND ").data l2).bind fun l3 =>
        matchMin5Pred Char.isDigit l3

/-- Replacement text for the public-key pattern (the source really writes
`char.public_key=...`, not `chat...`). -/
def pubKeyPlaceholder : List Char :=
  ("char.public_key=").data ++ [apos] ++ ("<HERE IS PUBLIC KEY>").data ++ [apos]

/-- Replacement text for the timestamp-range pattern. -/
def tsPlaceholder : List Char := ("timestamp BETWEEN <START HERE> AND <END HERE>").data

/-- Left-to-right replace-all scan, mirroring `QString::replace` with a
`QRegularExpression`: at each position, a match is replaced and scanning
continues after it, otherwise one character is copied. Both matchers
consume at least one character whenever they succeed, so running the scan
with `fuel` at least the input length never hits the fuel cutoff. -/
def scanReplace (matchAt : List Char → Option (List Char)) (repl : List Char) :
    Nat → List Char → List Char
  | _, [] => []
  | 0, l => l
  | fuel + 1, c :: rest =>
    match matchAt (c :: rest) with
    | some r => repl ++ scanReplace matchAt repl fuel r
    | none => c :: scanReplace matchAt repl fuel rest

/-- First `replace` call of `anonymizeQuery`: the public-key pattern pass. -/
def replacePubKeys (l : List Char) : List Char :=
  scanReplace matchPubKeyAt pubKeyPlaceholder l.length l

/-- Second `replace` call of `anonymizeQuery`: the timestamp-range pass. -/
def replaceTimestamps (l : List Char) : List Char :=
  scanReplace matchTimestampAt tsPlaceholder l.length l

/-- Model of `RawDatabaseImpl::anonymizeQuery`: first every occurrence of
the public-key pattern is replaced, then every occurrence of the
timestamp-range pattern is replaced in the result. -/
def anonymizeQuery (query : String) : String :=
  ⟨replaceTimestamps (replacePubKeys query.data)⟩

/-- Existence of a match of `matchAt` at some position of the list
(equivalently: the pattern has an occurrence somewhere in the text). -/
def anyMatch (matchAt : List Char → Option (List Char)) : List Char → Bool
  | [] => (matchAt []).isSome
  | c :: rest => (matchAt (c :: rest)).isSome || anyMatch matchAt rest

/-- One full occurrence of the public-key pattern: `chat`, one separator
character, `public_key='`, a 64-character key, and the closing quote. -/
def pubKeyOccurrence (c : Char) (K : List Char) : List Char :=
  ("chat").data ++ c :: ((("public_key=").data ++ [apos]) ++ (K ++ [apos]))

/-- One full occurrence of the timestamp-range pattern. -/
def timestampOccurrence (T1 T2 : List Char) : List Char :=
  ("timestamp BETWEEN ").data ++ (T1 ++ ((" AND ").data ++ T2))

/-- Existence of a run of 64 consecutive `[A-F0-9]` characters (the shape
of a hexadecimal public key) somewhere in a character list. -/
def hasKeyHexRun64 : List Char → Bool
  | [] => false
  | c :: rest => (isKeyHexChar c && (((c :: rest).take 64).length = 64 &&
      ((c :: rest).take 64).all isKeyHexChar)) || hasKeyHexRun64 rest

/-- String-level wrapper of `hasKeyHexRun64`. -/
def containsHex64 (s : String) : Bool := hasKeyHexRun64 s.data

/-- Concrete logged statement containing a 64-hex-character public key in
a context (`public_key=` without a preceding `chat` + separator) that the
anonymization patterns do not cover. -/
def c8KeyInput : String :=
  ⟨("SELECT * FROM peers WHERE public_key=").data ++ [apos] ++
    List.replicate 64 'A' ++ [apos]⟩

/-- Concrete logged statement containing a numeric timestamp range whose
bounds have fewer than 5 digits, which the anonymization patterns do not
cover. -/
def c8TsInput : String := "SELECT 1 WHERE timestamp BETWEEN 1234 AND 5678"

/-- On-disk database file as observed through the engine: the built-in
`user_version` counter, the key the file is encrypted under (empty for
plaintext) and an abstract content identifier standing for the stored
tables and rows. -/
structure DbFile where
  userVersion : Int
  key : String
  content : Nat
  deriving DecidableEq

/-- Filesystem: a map from paths to files. -/
def FileSystem : Type := String → Option DbFile

/-- Write of a file at a path. -/
def fsSet (fs : FileSystem) (p : String) (f : DbFile) : FileSystem :=
  fun q => if q = p then some f else fs q

/-- Deletion of a path (`QFile::remove`; the source ignores its result). -/
def fsRemove (fs : FileSystem) (p : String) : FileSystem :=
  fun q => if q = p then none else fs q

/-- Model of `QFile::rename`: fails when the source is missing or the
destination exists; on success the file moves. -/
def fsRename (fs : FileSystem) (p q : String) : Bool × FileSystem :=
  match fs p with
  | none => (false, fs)
  | some f => if (fs q).isSome then (false, fs) else (true, fsSet (fsRemove fs p) q f)

/-- Model of `QFile::copy`: fails when the source is missing or the
destination exists. -/
def fsCopy (fs : FileSystem) (p q : String) : Bool × FileSystem :=
  match fs p with
  | none => (false, fs)
  | some f => if (fs q).isSome then (false, fs) else (true, fsSet fs q f)

/-- Worker-owned state of a `RawDatabaseImpl` instance: whether the sqlite
handle is open, the current path, salt and hex key, and the number of
queued transactions (their content effects are abstracted; `process()`
drains the counter to zero). -/
structure St where
  sqliteOpen : Bool
  path : String
  currentSalt : List Nat
  currentHexKey : String
  pending : Nat

/-- Outcomes of the engine calls made by the lifecycle operations.
`encOpenOk` abstracts the whole
`openEncryptedDatabaseAtLatestSupportedVersion` call as a function of the
key (on success no further migration runs); the other fields are outcomes
of the individual `execNow` / sqlite calls named in the comments. -/
structure LifeOracle where
  sqliteOpenOk : Bool
  createRegexpOk : Bool
  createRegexpSensitiveOk : Bool
  encOpenOk : String → Bool
  readUserVersionOk : Bool
  attachOk : Bool
  setParamsMainOk : Bool
  setParamsAttachedOk : Bool
  exportOk : Bool
  setUserVersionOk : Bool
  detachOk : Bool
  rekeyOk : Bool
  probe : ProbeOracle

/-- Fresh empty plaintext database created by sqlite for a missing file. -/
def freshDbFile : DbFile := ⟨0, "", 0⟩

/-- Model of `RawDatabaseImpl::open`: crash recovery (a missing primary
file next to a leftover `.tmp` export is renamed into place), the
`sqlite3_open_v2` call (which creates a missing file), registration of the
two regexp functions (each failure closes and fails), and — for a
non-empty key — the encrypted-open path. Returns whether the handle is
left open, and the filesystem. -/
def openDb (o : LifeOracle) (path hexKey : String) (fs : FileSystem) : Bool × FileSystem :=
  let fs1 :=
    if (fs path).isNone ∧ (fs (path ++ ".tmp")).isSome then
      (fsRename fs (path ++ ".tmp") path).2
    else fs
  if !o.sqliteOpenOk then (false, fs1)
  else
    let fs2 := match fs1 path with
      | some _ => fs1
      | none => fsSet fs1 path freshDbFile
    if !o.createRegexpOk then (false, fs2)
    else if !o.createRegexpSensitiveOk then (false, fs2)
    else if hexKey ≠ "" ∧ o.encOpenOk hexKey = false then (false, fs2)
    else (true, fs2)

/-- Model of `RawDatabaseImpl::getUserVersion`: the `user_version` of the
open main database, or -1 when the `PRAGMA user_version` query fails. -/
def getUserVersion (o : LifeOracle) (st : St) (fs : FileSystem) : Int :=
  if o.readUserVersionOk then
    match fs st.path with
    | some f => f.userVersion
    | none => -1
  else -1

/-- Model of `RawDatabaseImpl::close`: the handle is released. -/
def closeDb (st : St) : St := {st with sqliteOpen := false}

/-- Model of `RawDatabaseImpl::commitDbSwap`: close, delete the primary
file, rename the `.tmp` export into place (the source ignores both
`QFile` results), install the new key and reopen at the same path. -/
def commitDbSwap (o : LifeOracle) (hexKey : String) (st : St) (fs : FileSystem) :
    Bool × St × FileSystem :=
  let fs1 := fsRemove fs st.path
  let fs2 := (fsRename fs1 (st.path ++ ".tmp") st.path).2
  let st1 := {st with sqliteOpen := false, currentHexKey := hexKey}
  let r := openDb o st.path hexKey fs2
  (r.1, {st1 with sqliteOpen := r.1}, r.2)

/-- Model of `RawDatabaseImpl::updateSavedCipherParameters`: detect the
saved generation, re-set the key (result ignored by the source), apply the
saved generation's pragmas, read `user_version`, `ATTACH` the `.tmp`
export file keyed with the same key, apply the target pragmas to it,
`sqlcipher_export` the content, write the saved `user_version` into the
export, `DETACH`, and swap the export into place. Every failing step
returns `false` without touching the primary file. -/
def updateSavedCipherParameters (o : LifeOracle) (hexKey : String)
    (newParams : SqlCipherParams) (st : St) (fs : FileSystem) : Bool × St × FileSystem :=
  let _currentParams := readSavedCipherParams o.probe newParams
  if !o.setParamsMainOk then (false, st, fs)
  else
    let uv := getUserVersion o st fs
    if uv < 0 then (false, st, fs)
    else if !o.attachOk then (false, st, fs)
    else
      let fs1 := fsSet fs (st.path ++ ".tmp") ⟨0, hexKey, 0⟩
      if !o.setParamsAttachedOk then (false, st, fs1)
      else if !o.exportOk then (false, st, fs1)
      else
        let fs2 := match fs1 st.path, fs1 (st.path ++ ".tmp") with
          | some f, some g => fsSet fs1 (st.path ++ ".tmp") {g with content := f.content}
          | _, _ => fs1
        if !o.setUserVersionOk then (false, st, fs2)
        else
          let fs3 := match fs2 (st.path ++ ".tmp") with
            | some g => fsSet fs2 (st.path ++ ".tmp") {g with userVersion := uv}
            | none => fs2
          if !o.detachOk then (false, st, fs3)
          else commitDbSwap o hexKey st fs3

/-- Model of `RawDatabaseImpl::encryptDatabase`: read `user_version`,
`ATTACH` the `.tmp` export keyed with the new key, apply the current
(`p4_0`) pragmas to it, `sqlcipher_export`, write the `user_version` into
the export, `DETACH`, and swap the export into place. -/
def encryptDatabase (o : LifeOracle) (newHexKey : String) (st : St) (fs : FileSystem) :
    Bool × St × FileSystem :=
  let uv := getUserVersion o st fs
  if uv < 0 then (false, st, fs)
  else if !o.attachOk then (false, st, fs)
  else
    let fs1 := fsSet fs (st.path ++ ".tmp") ⟨0, newHexKey, 0⟩
    if !o.setParamsAttachedOk then (false, st, fs1)
    else if !o.exportOk then (false, st, fs1)
    else
      let fs2 := match fs1 st.path, fs1 (st.path ++ ".tmp") with
        | some f, some g => fsSet fs1 (st.path ++ ".tmp") {g with content := f.content}
        | _, _ => fs1
      if !o.setUserVersionOk then (false, st, fs2)
      else
        let fs3 := match fs2 (st.path ++ ".tmp") with
          | some g => fsSet fs2 (st.path ++ ".tmp") {g with userVersion := uv}
          | none => fs2
        if !o.detachOk then (false, st, fs3)
        else commitDbSwap o newHexKey st fs3

/-- Model of `RawDatabaseImpl::decryptDatabase`: read `user_version`, run
the combined `ATTACH`-with-empty-key + `sqlcipher_export` statement (one
`execNow`; on success the plaintext export holds the content), write the
`user_version` into the export, `DETACH`, and swap the export into place
with the empty key. -/
def decryptDatabase (o : LifeOracle) (st : St) (fs : FileSystem) : Bool × St × FileSystem :=
  let uv := getUserVersion o st fs
  if uv < 0 then (false, st, fs)
  else if !(o.attachOk && o.exportOk) then (false, st, fs)
  else
    let fs1 := match fs st.path with
      | some f => fsSet fs (st.path ++ ".tmp") ⟨0, "", f.content⟩
      | none => fsSet fs (st.path ++ ".tmp") ⟨0, "", 0⟩
    if !o.setUserVersionOk then (false, st, fs1)
    else
      let fs2 := match fs1 (st.path ++ ".tmp") with
        | some g => fsSet fs1 (st.path ++ ".tmp") {g with userVersion := uv}
        | none => fs1
      if !o.detachOk then (false, st, fs2)
      else commitDbSwap o "" st fs2

/-- Model of `RawDatabaseImpl::setPassword`: fails when the store is not
open; otherwise drains the queue (`process()`), deletes a stray leftover
`.tmp` export, and then: a non-empty password either rekeys in place via
`PRAGMA rekey` (when already encrypted; the source does not update
`currentHexKey` here) or encrypts via export-and-swap (when plaintext); an
empty password is a no-op when already plaintext and otherwise decrypts
via export-and-swap. Failures of the rekey pragma or of the export
operations close the store and return `false`. -/
def setPassword (o : LifeOracle) (password : String) (st : St) (fs : FileSystem) :
    Bool × St × FileSystem :=
  if !st.sqliteOpen then (false, st, fs)
  else
    let st1 := {st with pending := 0}
    let fs1 :=
      if (fs (st.path ++ ".tmp")).isSome then fsRemove fs (st.path ++ ".tmp") else fs
    if password ≠ "" then
      let newHexKey := deriveKey password st.currentSalt
      if st.currentHexKey ≠ "" then
        if !o.rekeyOk then (false, closeDb st1, fs1)
        else
          (true, st1,
            match fs1 st.path with
            | some f => fsSet fs1 st.path {f with key := newHexKey}
            | none => fs1)
      else
        let r := encryptDatabase o newHexKey st1 fs1
        if r.1 then (true, {r.2.1 with currentHexKey := newHexKey}, r.2.2)
        else (false, closeDb r.2.1, r.2.2)
    else
      if st.currentHexKey = "" then (true, st1, fs1)
      else
        let r := decryptDatabase o st1 fs1
        if r.1 then (true, r.2.1, r.2.2)
        else (false, closeDb r.2.1, r.2.2)

/-- Model of `RawDatabaseImpl::rename`: fails when the store is not open;
otherwise drains the queue (`process()`), succeeds without further effect
when the path is unchanged, fails when the destination exists, and
otherwise closes, moves the file, and reopens at the new path with the
existing key. -/
def renameDb (o : LifeOracle) (newPath : String) (st : St) (fs : FileSystem) :
    Bool × St × FileSystem :=
  if !st.sqliteOpen then (false, st, fs)
  else
    let st1 := {st with pending := 0}
    if st.path = newPath then (true, st1, fs)
    else if (fs newPath).isSome then (false, st1, fs)
    else
      let st2 := closeDb st1
      let rr := fsRename fs st.path newPath
      if !rr.1 then (false, st2, rr.2)
      else
        let st3 := {st2 with path := newPath}
        let r := openDb o newPath st.currentHexKey rr.2
        (r.1, {st3 with sqliteOpen := r.1}, r.2)

/-- Result of the constructor model: final state, filesystem, and whether
the opportunistic upgrade (`setPassword` after a legacy-key fallback open)
was attempted. -/
structure CtorResult where
  st : St
  fs : FileSystem
  upgradeAttempted : Bool

/-- Model of the constructor `RawDatabaseImpl::RawDatabaseImpl`: derive
the salted key and try opening with it; on failure close, attempt the
`.bak` backup copy (a failed copy disables the upgrade), fall back to the
legacy unsalted key, and on a successful legacy open attempt the upgrade
(`setPassword(password)`) only when the backup succeeded; the result of
the upgrade attempt is only logged. -/
def rawDatabaseCtor (o : LifeOracle) (path password : String) (salt : List Nat)
    (fs : FileSystem) : CtorResult :=
  let key0 := deriveKey password salt
  let st0 : St := ⟨false, path, salt, key0, 0⟩
  let r1 := openDb o path key0 fs
  if r1.1 then ⟨{st0 with sqliteOpen := true}, r1.2, false⟩
  else
    let rc := fsCopy r1.2 path (path ++ ".bak")
    let legacyKey := deriveKeyLegacy password
    let st1 := {st0 with currentHexKey := legacyKey}
    let r2 := openDb o path legacyKey rc.2
    let st2 := {st1 with sqliteOpen := r2.1}
    if r2.1 then
      if rc.1 then
        let rp := setPassword o password st2 r2.2
        ⟨rp.2.1, rp.2.2, true⟩
      else ⟨st2, r2.2, false⟩
    else ⟨st2, r2.2, false⟩

/-- Engine oracle in which every call succeeds. -/
def allOkOracle : LifeOracle :=
  ⟨true, true, true, fun _ => true, true, true, true, true, true, true, true, true,
    ⟨fun _ => true, fun _ => true, fun _ => true⟩⟩

/-- Concrete open store at path "db". -/
def c7TestSt : St := ⟨true, "db", [], "oldkey", 0⟩

/-- Concrete filesystem holding one database file with `user_version` 7. -/
def c7TestFs : FileSystem := fun q => if q = "db" then some ⟨7, "oldkey", 5⟩ else none

/-- Concrete salt (32 zero bytes) for the constructor scenarios. -/
def c10Salt : List Nat := List.replicate 32 0

/-- Engine oracle for the constructor fallback scenarios: opening succeeds
exactly with the legacy-derived key for password "p" (the salted key is
rejected), and the `PRAGMA rekey` of the upgrade attempt fails; every
other call succeeds. -/
def c10Oracle : LifeOracle :=
  ⟨true, true, true, fun k => k == deriveKeyLegacy "p", true, true, true, true, true, true,
    true, false, ⟨fun _ => true, fun _ => true, fun _ => true⟩⟩

/-- Filesystem with one database file encrypted under the legacy key and
no `.bak` sibling (so the backup copy succeeds). -/
def c10Fs : FileSystem :=
  fun q => if q = "db" then some ⟨0, deriveKeyLegacy "p", 3⟩ else none

/-- Filesystem like `c10Fs` but with a pre-existing `.bak` sibling (so the
backup copy fails). -/
def c10FsBak : FileSystem :=
  fun q => if q = "db" then some ⟨0, deriveKeyLegacy "p", 3⟩
    else if q = "db.bak" then some ⟨0, "", 0⟩ else none

end RawDb

/-! Theorems. -/

namespace RawDb

theorem takeWhile_eq_of_all {p : String → Bool} :
    ∀ {l : List String}, l.all p = true → l.takeWhile p = l := by
  intro l h
  induction l with
  | nil => rfl
  | cons a t ih =>
    simp only [List.all_cons, Bool.and_eq_true] at h
    simp [List.takeWhile_cons, h.1, ih h.2]

theorem mem_takeWhile_ok {p : String → Bool} :
    ∀ {l : List String} {s : String}, s ∈ l.takeWhile p → s ∈ l ∧ p s = true := by
  intro l
  induction l with
  | nil => intro s h; simp [List.takeWhile] at h
  | cons a t ih =>
    intro s h
    by_cases hp : p a
    · rw [List.takeWhile_cons_of_pos hp] at h
      rcases List.mem_cons.mp h with h | h
      · exact ⟨by simp [h], h ▸ hp⟩
      · rcases ih h with ⟨h1, h2⟩
        exact ⟨List.mem_cons_of_mem _ h1, h2⟩
    · rw [List.takeWhile_cons_of_neg hp] at h
      simp at h

theorem runQueries_success (e : Engine) :
    ∀ l : List Query,
      (runQueries e l).2 = l.all fun q => q.stmts.all e.compile && q.stmts.all e.step := by
  intro l
  induction l with
  | nil => rfl
  | cons q rest ih =>
    simp only [runQueries, runQuery, List.all_cons]
    by_cases hc : q.stmts.all e.compile
    · by_cases hs : q.stmts.all e.step
      · simp [hc, hs, ih]
      · simp [hc, hs]
    · simp [hc]

theorem runQueries_executed_ok (e : Engine) :
    ∀ l : List Query, ∀ s ∈ (runQueries e l).1, e.compile s = true ∧ e.step s = true := by
  intro l
  induction l with
  | nil => intro s h; simp [runQueries] at h
  | cons q rest ih =>
    intro s h
    simp only [runQueries, runQuery] at h
    by_cases hc : q.stmts.all e.compile
    · simp only [hc, if_true] at h
      by_cases hs : q.stmts.all e.step
      · simp only [hs, if_true, List.mem_append] at h
        rcases h with h | h
        · rcases mem_takeWhile_ok h with ⟨hmem, hstep⟩
          exact ⟨List.all_eq_true.mp hc _ hmem, hstep⟩
        · exact ih s h
      · simp only [hs, if_false] at h
        rcases mem_takeWhile_ok h with ⟨hmem, hstep⟩
        exact ⟨List.all_eq_true.mp hc _ hmem, hstep⟩
    · simp [hc] at h

theorem runQueries_executed_leads (e : Engine) :
    ∀ l : List Query, ∃ rest, l.flatMap Query.stmts = (runQueries e l).1 ++ rest := by
  intro l
  induction l with
  | nil => exact ⟨[], rfl⟩
  | cons q rest ih =>
    simp only [runQueries, runQuery, List.flatMap_cons]
    by_cases hc : q.stmts.all e.compile
    · by_cases hs : q.stmts.all e.step
      · rcases ih with ⟨r2, hr2⟩
        refine ⟨r2, ?_⟩
        simp [hc, hs, takeWhile_eq_of_all hs, hr2]
      · refine ⟨q.stmts.dropWhile e.step ++ rest.flatMap Query.stmts, ?_⟩
        simp [hc, hs, ← List.append_assoc, List.takeWhile_append_dropWhile]
    · exact ⟨q.stmts ++ rest.flatMap Query.stmts, by simp [hc]⟩

theorem runQueries_all_ok (e : Engine)
    (h : ∀ q : Query, ∀ s ∈ q.stmts, e.compile s = true ∧ e.step s = true) :
    ∀ l : List Query, runQueries e l = (l.flatMap Query.stmts, true) := by
  intro l
  induction l with
  | nil => rfl
  | cons q rest ih =>
    have hc : q.stmts.all e.compile = true := List.all_eq_true.mpr fun s hs => (h q s hs).1
    have hs : q.stmts.all e.step = true := List.all_eq_true.mpr fun s hs => (h q s hs).2
    simp [runQueries, runQuery, hc, hs, takeWhile_eq_of_all hs, ih]

theorem mem_addTransactionCommands {q : Query} {qs : List Query} (h : q ∈ qs) :
    q ∈ addTransactionCommands qs := by
  unfold addTransactionCommands
  by_cases h1 : 1 < qs.length
  · simp [h1, h]
  · simpa [h1]

/-- C1: for every submitted transaction, if the transaction contains more
than one `Query` the worker prepends a `BEGIN` query and appends a `COMMIT`
query before compiling and executing (so, whenever all wrapped statements
succeed, the executed statement sequence is exactly `BEGIN;`, the
transaction's own statements in order, then `COMMIT;`); if the transaction
contains at most one `Query`, no wrapping is added and exactly the query's
own statements run. -/
theorem c1_transaction_wrapping (e : Engine) (qs : List Query) :
    (1 < qs.length → addTransactionCommands qs = beginQuery :: (qs ++ [commitQuery])) ∧
    (¬ 1 < qs.length → addTransactionCommands qs = qs) ∧
    ((∀ q : Query, ∀ s ∈ q.stmts, e.compile s = true ∧ e.step s = true) →
      (1 < qs.length →
        compileAndExecute e qs =
          ("BEGIN;" :: (qs.flatMap Query.stmts ++ ["COMMIT;"]), true)) ∧
      (¬ 1 < qs.length → compileAndExecute e qs = (qs.flatMap Query.stmts, true))) := by
  refine ⟨fun h => by simp [addTransactionCommands, h], fun h => by simp [addTransactionCommands, h], ?_⟩
  intro hok
  constructor
  · intro h
    have h1 : addTransactionCommands qs = beginQuery :: (qs ++ [commitQuery]) := by
      simp [addTransactionCommands, h]
    rw [compileAndExecute, h1, runQueries_all_ok e hok]
    simp [beginQuery, commitQuery]
  · intro h
    have h1 : addTransactionCommands qs = qs := by simp [addTransactionCommands, h]
    rw [compileAndExecute, h1, runQueries_all_ok e hok]

/-- C1 witness: a concrete two-query transaction is wrapped in `BEGIN;` /
`COMMIT;` and a concrete single-query transaction is not. -/
theorem c1_transaction_wrapping_witness :
    (addTransactionCommands [⟨["INSERT A;"]⟩, ⟨["INSERT B;"]⟩] =
      beginQuery :: ([⟨["INSERT A;"]⟩, ⟨["INSERT B;"]⟩] ++ [commitQuery])) ∧
    (compileAndExecute ⟨fun _ => true, fun _ => true⟩ [⟨["INSERT A;"]⟩, ⟨["INSERT B;"]⟩] =
      ("BEGIN;" :: (["INSERT A;", "INSERT B;"] ++ ["COMMIT;"]), true)) ∧
    (compileAndExecute ⟨fun _ => true, fun _ => true⟩ [⟨["SELECT 1;"]⟩] =
      (["SELECT 1;"], true)) := by
  have h2 := c1_transaction_wrapping ⟨fun _ => true, fun _ => true⟩
      [⟨["INSERT A;"]⟩, ⟨["INSERT B;"]⟩]
  have h1 := c1_transaction_wrapping ⟨fun _ => true, fun _ => true⟩ [⟨["SELECT 1;"]⟩]
  have hok : ∀ q : Query, ∀ s ∈ q.stmts,
      (⟨fun _ => true, fun _ => true⟩ : Engine).compile s = true ∧
      (⟨fun _ => true, fun _ => true⟩ : Engine).step s = true := fun _ _ _ => ⟨rfl, rfl⟩
  refine ⟨h2.1 (by decide), ?_, ?_⟩
  · have := (h2.2.2 hok).1 (by decide)
    simpa using this
  · have := (h1.2.2 hok).2 (by decide)
    simpa using this

/-- C2: on any compile, bind, or step error in any statement of a
transaction, the transaction fails: the shared success flag (stored
`false` before execution begins) is left `false`, `execNow` returns
`false` for that transaction, every statement that was executed to
completion compiled and stepped successfully, and the executed statements
form a prefix of the wrapped transaction's statement sequence — so no
statement at or beyond the failing one is ever executed. -/
theorem c2_error_aborts_transaction (e : Engine) (qs : List Query) (q : Query) (s : String)
    (hq : q ∈ qs) (hs : s ∈ q.stmts) (hfail : ¬(e.compile s = true ∧ e.step s = true)) :
    (compileAndExecute e qs).2 = false ∧
    execNow e true qs = false ∧
    (∀ t ∈ (compileAndExecute e qs).1, e.compile t = true ∧ e.step t = true) ∧
    (∃ rest, (addTransactionCommands qs).flatMap Query.stmts =
      (compileAndExecute e qs).1 ++ rest) := by
  have hmem : q ∈ addTransactionCommands qs := mem_addTransactionCommands hq
  have hqbad : (q.stmts.all e.compile && q.stmts.all e.step) = false := by
    by_contra hne
    have hb : (q.stmts.all e.compile && q.stmts.all e.step) = true := by
      cases h : (q.stmts.all e.compile && q.stmts.all e.step) <;> simp_all
    rcases Bool.and_eq_true _ _ |>.mp hb with ⟨hc, hst⟩
    exact hfail ⟨List.all_eq_true.mp hc s hs, List.all_eq_true.mp hst s hs⟩
  have hsucc : (runQueries e (addTransactionCommands qs)).2 = false := by
    rw [runQueries_success]
    refine List.all_eq_false.mpr ⟨q, hmem, ?_⟩
    simp [hqbad]
  refine ⟨hsucc, by simp [execNow, compileAndExecute, hsucc], ?_, ?_⟩
  · exact runQueries_executed_ok e (addTransactionCommands qs)
  · exact runQueries_executed_leads e (addTransactionCommands qs)

/-- C2 witness: a concrete three-query transaction whose second query has
a step error fails, and only the statements before the error run. -/
theorem c2_error_aborts_transaction_witness :
    ("BAD;" ∈ (⟨["BAD;"]⟩ : Query).stmts) ∧
    (compileAndExecute ⟨fun _ => true, fun s => s ≠ "BAD;"⟩
        [⟨["OK1;"]⟩, ⟨["BAD;"]⟩, ⟨["OK2;"]⟩]).2 = false ∧
    execNow ⟨fun _ => true, fun s => s ≠ "BAD;"⟩ true
        [⟨["OK1;"]⟩, ⟨["BAD;"]⟩, ⟨["OK2;"]⟩] = false := by
  have h := c2_error_aborts_transaction ⟨fun _ => true, fun s => s ≠ "BAD;"⟩
      [⟨["OK1;"]⟩, ⟨["BAD;"]⟩, ⟨["OK2;"]⟩] ⟨["BAD;"]⟩ "BAD;"
      (by decide) (by decide) (by decide)
  exact ⟨by decide, h.1, h.2.1⟩

/-- C3 counterexample: with the engine reporting cipher version "5.0.0"
(major version 5, hence "4 or greater"), `highestSupportedParams` does not
return the current generation `p4_0` as the claim states — it logs a
critical error and falls back to `p3_0`. -/
theorem c3_counterexample :
    majorCipherVersion "5.0.0" = 5 ∧
    highestSupportedParams (some "5.0.0") = (.p3_0, true) ∧
    (highestSupportedParams (some "5.0.0")).1 ≠ SqlCipherParams.p4_0 := by
  decide

/-- C3 amended: `highestSupportedParams` returns `halfUpgradedTo4` when
the reported major cipher version is 3 and `p4_0` when it is exactly 4;
for any other reported version — including versions greater than 4 — and
when the version query itself fails, it logs a critical error and falls
back to returning the oldest generation `p3_0` (the failure is not fatal:
the caller keeps going with that value). -/
theorem c3_amended_highest_supported_params :
    highestSupportedParams none = (.p3_0, true) ∧
    (∀ s : String, majorCipherVersion s = 3 →
      highestSupportedParams (some s) = (.halfUpgradedTo4, false)) ∧
    (∀ s : String, majorCipherVersion s = 4 →
      highestSupportedParams (some s) = (.p4_0, false)) ∧
    (∀ s : String, majorCipherVersion s ≠ 3 → majorCipherVersion s ≠ 4 →
      highestSupportedParams (some s) = (.p3_0, true)) := by
  refine ⟨rfl, fun s h => ?_, fun s h => ?_, fun s h3 h4 => ?_⟩
  · simp [highestSupportedParams, h]
  · simp [highestSupportedParams, h]
  · simp [highestSupportedParams, h3, h4]

/-- C3 amended witness: concrete reported versions "3.4.2", "4.5.3" and
"5.0.0" hit the three branches of the amended statement. -/
theorem c3_amended_highest_supported_params_witness :
    highestSupportedParams (some "3.4.2") = (.halfUpgradedTo4, false) ∧
    highestSupportedParams (some "4.5.3") = (.p4_0, false) ∧
    highestSupportedParams (some "5.0.0") = (.p3_0, true) := by
  refine ⟨c3_amended_highest_supported_params.2.1 "3.4.2" (by decide),
    c3_amended_highest_supported_params.2.2.1 "4.5.3" (by decide),
    c3_amended_highest_supported_params.2.2.2 "5.0.0" (by decide) (by decide)⟩

theorem SqlCipherParams.toNat_le_two (p : SqlCipherParams) : p.toNat ≤ 2 := by
  cases p <;> decide

theorem SqlCipherParams.toNat_fromNat {i : Nat} (h : i < 3) :
    (SqlCipherParams.fromNat i).toNat = i := by
  match i, h with
  | 0, _ => rfl
  | 1, _ => rfl
  | 2, _ => rfl

theorem probeFrom_eq_some {o : ProbeOracle} :
    ∀ fuel i j : Nat, probeFrom o i fuel = some j →
      i ≤ j ∧ j < i + fuel ∧
      o.setKeyOk j = true ∧ o.setParamsOk j = true ∧ o.testUsable j = true ∧
      ∀ m, i ≤ m → m < j →
        o.setKeyOk m = true ∧ o.setParamsOk m = true ∧ o.testUsable m = false := by
  intro fuel
  induction fuel with
  | zero => intro i j h; simp [probeFrom] at h
  | succ f ih =>
    intro i j h
    simp only [probeFrom] at h
    cases hk : o.setKeyOk i with
    | false => simp [hk] at h
    | true =>
      cases hp : o.setParamsOk i with
      | false => simp [hk, hp] at h
      | true =>
        cases ht : o.testUsable i with
        | false =>
          simp only [hk, hp, ht, Bool.not_true, Bool.not_false, if_true, if_false,
            Bool.false_eq_true] at h
          rcases ih (i + 1) j h with ⟨h1, h2, h3, h4, h5, h6⟩
          refine ⟨by omega, by omega, h3, h4, h5, fun m hm1 hm2 => ?_⟩
          rcases Nat.eq_or_lt_of_le hm1 with heq | hlt
          · subst heq
            exact ⟨hk, hp, ht⟩
          · exact h6 m hlt hm2
        | true =>
          simp only [hk, hp, ht, Bool.not_true, if_true, if_false, Bool.false_eq_true,
            Option.some.injEq] at h
          subst h
          exact ⟨le_refl _, by omega, hk, hp, ht,
            fun m h1 h2 => absurd (lt_of_le_of_lt h1 h2) (lt_irrefl _)⟩

theorem probeFrom_none_of_all_fail {o : ProbeOracle} :
    ∀ fuel i : Nat,
      (∀ m, i ≤ m → m < i + fuel →
        o.setKeyOk m = true ∧ o.setParamsOk m = true ∧ o.testUsable m = false) →
      probeFrom o i fuel = none := by
  intro fuel
  induction fuel with
  | zero => intro i _; rfl
  | succ f ih =>
    intro i h
    have hi := h i (le_refl _) (by omega)
    simp only [probeFrom, hi.1, hi.2.1, hi.2.2, Bool.not_true, Bool.false_eq_true, if_false]
    exact ih (i + 1) fun m h1 h2 => h m (by omega) (by omega)

theorem probeFrom_none_of_setup_break {o : ProbeOracle} :
    ∀ fuel i k : Nat, i ≤ k → k < i + fuel →
      (∀ m, i ≤ m → m < k →
        o.setKeyOk m = true ∧ o.setParamsOk m = true ∧ o.testUsable m = false) →
      ¬(o.setKeyOk k = true ∧ o.setParamsOk k = true) →
      probeFrom o i fuel = none := by
  intro fuel
  induction fuel with
  | zero => intro i k h1 h2 _ _; omega
  | succ f ih =>
    intro i k h1 h2 hpre hbad
    rcases Nat.eq_or_lt_of_le h1 with heq | hlt
    · subst heq
      cases hk : o.setKeyOk i with
      | false => simp [probeFrom, hk]
      | true =>
        have hp : o.setParamsOk i = false := by
          cases hp : o.setParamsOk i
          · rfl
          · exact absurd ⟨hk, hp⟩ hbad
        simp [probeFrom, hk, hp]
    · have hi := hpre i (le_refl _) hlt
      simp only [probeFrom, hi.1, hi.2.1, hi.2.2, Bool.not_true, Bool.false_eq_true, if_false]
      exact ih (i + 1) k hlt (by omega) (fun m hm1 hm2 => hpre m (by omega) hm2) hbad

/-- C4 counterexample: with `breakingProbeOracle` and target generation
`p4_0`, generation `halfUpgradedTo4` is the first (and only) generation
whose probe steps all succeed — setting the key, applying its pragmas and
the usability probe — yet `readSavedCipherParams` does not return it: the
pragma failure at generation `p3_0` breaks the scan immediately, and the
function reports a detection failure with the fallback value `p3_0`. -/
theorem c4_counterexample :
    (breakingProbeOracle.setKeyOk 1 = true ∧ breakingProbeOracle.setParamsOk 1 = true ∧
      breakingProbeOracle.testUsable 1 = true) ∧
    breakingProbeOracle.setParamsOk 0 = false ∧
    readSavedCipherParams breakingProbeOracle .p4_0 = (.p3_0, true) ∧
    (readSavedCipherParams breakingProbeOracle .p4_0).1 ≠ SqlCipherParams.halfUpgradedTo4 := by
  decide

/-- C4 amended: `readSavedCipherParams` scans the generations from the
oldest upward, strictly below the target, but only while setting the key
and applying the generation's pragmas succeed. When a usability probe
succeeds the scanned generation is returned (and for every earlier
generation the key and pragmas had succeeded and the probe had failed);
when every probed generation fails its probe, or setting the key /
applying pragmas fails for some generation before any probe succeeded,
the scan aborts, a critical detection failure is logged, and the fallback
value `p3_0` is returned. -/
theorem c4_amended_read_saved_cipher_params (o : ProbeOracle) (newParams : SqlCipherParams) :
    ((readSavedCipherParams o newParams).2 = false →
      (readSavedCipherParams o newParams).1.toNat < newParams.toNat ∧
      o.setKeyOk (readSavedCipherParams o newParams).1.toNat = true ∧
      o.setParamsOk (readSavedCipherParams o newParams).1.toNat = true ∧
      o.testUsable (readSavedCipherParams o newParams).1.toNat = true ∧
      ∀ j < (readSavedCipherParams o newParams).1.toNat,
        o.setKeyOk j = true ∧ o.setParamsOk j = true ∧ o.testUsable j = false) ∧
    ((∀ j < newParams.toNat,
        o.setKeyOk j = true ∧ o.setParamsOk j = true ∧ o.testUsable j = false) →
      readSavedCipherParams o newParams = (.p3_0, true)) ∧
    (∀ k < newParams.toNat,
      (∀ j < k, o.setKeyOk j = true ∧ o.setParamsOk j = true ∧ o.testUsable j = false) →
      ¬(o.setKeyOk k = true ∧ o.setParamsOk k = true) →
      readSavedCipherParams o newParams = (.p3_0, true)) := by
  refine ⟨?_, ?_, ?_⟩
  · intro hfalse
    cases heq : probeFrom o 0 newParams.toNat with
    | none =>
      exfalso
      unfold readSavedCipherParams at hfalse
      rw [heq] at hfalse
      simp at hfalse
    | some i =>
      have hres : readSavedCipherParams o newParams = (SqlCipherParams.fromNat i, false) := by
        unfold readSavedCipherParams
        rw [heq]
      rcases probeFrom_eq_some _ _ _ heq with ⟨_, h2, h3, h4, h5, h6⟩
      have hi3 : i < 3 := by
        have := newParams.toNat_le_two
        omega
      have hio : (SqlCipherParams.fromNat i).toNat = i := SqlCipherParams.toNat_fromNat hi3
      rw [hres]
      simp only [hio]
      exact ⟨by omega, h3, h4, h5, fun j hj => h6 j (by omega) hj⟩
  · intro h
    unfold readSavedCipherParams
    rw [probeFrom_none_of_all_fail newParams.toNat 0 fun m _ hm2 => h m (by omega)]
  · intro k hk hpre hbad
    unfold readSavedCipherParams
    rw [probeFrom_none_of_setup_break newParams.toNat 0 k (by omega) (by omega)
      (fun m _ hm2 => hpre m hm2) hbad]

/-- C4 amended witness: with a concrete oracle whose generation-0 probe
fails but generation-1 probe succeeds (key and pragmas succeeding for
both), the scan returns `halfUpgradedTo4` with no detection failure. -/
theorem c4_amended_read_saved_cipher_params_witness :
    readSavedCipherParams ⟨fun _ => true, fun _ => true, fun i => i != 0⟩ .p4_0 =
      (.halfUpgradedTo4, false) ∧
    (readSavedCipherParams ⟨fun _ => true, fun _ => true, fun i => i != 0⟩ .p4_0).2 = false ∧
    (readSavedCipherParams ⟨fun _ => true, fun _ => true, fun i => i != 0⟩ .p4_0).1.toNat <
      SqlCipherParams.p4_0.toNat := by
  refine ⟨by decide, by decide, ?_⟩
  exact ((c4_amended_read_saved_cipher_params
    ⟨fun _ => true, fun _ => true, fun i => i != 0⟩ .p4_0).1 (by decide)).1

theorem length_toxPassKeyDeriveWithSalt (p s : List Nat) :
    (toxPassKeyDeriveWithSalt p s).length = 64 := by
  simp [toxPassKeyDeriveWithSalt]

theorem mem_toxPassKeyDeriveWithSalt_lt {p s : List Nat} {b : Nat}
    (h : b ∈ toxPassKeyDeriveWithSalt p s) : b < 256 := by
  simp only [toxPassKeyDeriveWithSalt, List.mem_map] at h
  rcases h with ⟨i, _, hi⟩
  omega

theorem length_flatMap_byteToHex : ∀ l : List Nat, (l.flatMap byteToHex).length = 2 * l.length := by
  intro l
  induction l with
  | nil => rfl
  | cons b t ih =>
    simp only [List.flatMap_cons, List.length_append, ih, byteToHex, List.length_cons,
      List.length_nil]
    omega

theorem length_hexEncode (l : List Nat) : (hexEncode l).length = 2 * l.length :=
  length_flatMap_byteToHex l

theorem hexEncode_ne_empty {l : List Nat} (h : l ≠ []) : hexEncode l ≠ "" := by
  intro heq
  have hlen : (hexEncode l).length = 0 := by rw [heq]; rfl
  rw [length_hexEncode] at hlen
  exact h (List.length_eq_zero.mp (by omega))

theorem isLowerHexChar_hexDigit {n : Nat} (h : n < 16) : isLowerHexChar (hexDigit n) = true := by
  interval_cases n <;> decide

theorem mem_hexEncode_isHex {l : List Nat} (hl : ∀ b ∈ l, b < 256) :
    ∀ c ∈ (hexEncode l).data, isLowerHexChar c = true := by
  intro c hc
  simp only [hexEncode, List.mem_flatMap] at hc
  rcases hc with ⟨b, hb, hcb⟩
  have hblt : b < 256 := hl b hb
  simp only [byteToHex, List.mem_cons, List.not_mem_nil, or_false] at hcb
  rcases hcb with rfl | rfl
  · exact isLowerHexChar_hexDigit (by omega)
  · exact isLowerHexChar_hexDigit (Nat.mod_lt _ (by omega))

theorem derivedKeyBytes_length (p s : List Nat) :
    (((toxPassKeyDeriveWithSalt p s).drop 32).take 32).length = 32 := by
  simp [List.length_take, List.length_drop, length_toxPassKeyDeriveWithSalt p s]

/-- C5: for every password and salt, the salted `deriveKey(password, salt)`
returns the empty key exactly when the password is empty or the salt's
length differs from the engine-mandated `TOX_PASS_SALT_LENGTH`; for every
non-empty password with a valid-length salt the result is a non-empty
hex-encoded key (64 lower-case hexadecimal characters, i.e. 256 bits);
and deriving from the empty password yields the empty key in both the
salted and the legacy unsalted variant. -/
theorem c5_derive_key :
    (∀ (password : String) (salt : List Nat),
      deriveKey password salt = "" ↔
        password = "" ∨ salt.length ≠ TOX_PASS_SALT_LENGTH) ∧
    (∀ (password : String) (salt : List Nat), password ≠ "" →
      salt.length = TOX_PASS_SALT_LENGTH →
      deriveKey password salt ≠ "" ∧
      (deriveKey password salt).length = 64 ∧
      ∀ c ∈ (deriveKey password salt).data, isLowerHexChar c = true) ∧
    (∀ salt : List Nat, deriveKey "" salt = "") ∧
    deriveKeyLegacy "" = "" := by
  have hmain : ∀ (password : String) (salt : List Nat), password ≠ "" →
      salt.length = TOX_PASS_SALT_LENGTH →
      deriveKey password salt ≠ "" ∧
      (deriveKey password salt).length = 64 ∧
      ∀ c ∈ (deriveKey password salt).data, isLowerHexChar c = true := by
    intro password salt hpw hs
    have heq : deriveKey password salt =
        hexEncode (((toxPassKeyDeriveWithSalt (qStringUtf8 password) salt).drop 32).take 32) := by
      simp [deriveKey, hpw, hs]
    have hne : ((toxPassKeyDeriveWithSalt (qStringUtf8 password) salt).drop 32).take 32 ≠ [] := by
      intro h
      have := derivedKeyBytes_length (qStringUtf8 password) salt
      rw [h] at this
      simp at this
    refine ⟨heq ▸ hexEncode_ne_empty hne, ?_, ?_⟩
    · rw [heq, length_hexEncode, derivedKeyBytes_length]
    · rw [heq]
      refine mem_hexEncode_isHex fun b hb => ?_
      exact mem_toxPassKeyDeriveWithSalt_lt
        (List.drop_subset _ _ (List.take_subset _ _ hb))
  refine ⟨?_, hmain, fun salt => by simp [deriveKey], by simp [deriveKeyLegacy]⟩
  intro password salt
  constructor
  · intro h
    by_contra hcon
    push_neg at hcon
    exact (hmain password salt hcon.1 hcon.2).1 h
  · rintro (rfl | h)
    · simp [deriveKey]
    · simp [deriveKey, h]

/-- C5 witness: a concrete non-empty password with a concrete 32-byte salt
derives a non-empty 64-character hexadecimal key, and the empty password
derives the empty key in both variants. -/
theorem c5_derive_key_witness :
    (deriveKey "abc" (List.replicate 32 0) ≠ "" ∧
      (deriveKey "abc" (List.replicate 32 0)).length = 64) ∧
    deriveKey "" (List.replicate 32 0) = "" ∧
    deriveKeyLegacy "" = "" := by
  have h := c5_derive_key
  have hm := h.2.1 "abc" (List.replicate 32 0) (by decide) (by simp [TOX_PASS_SALT_LENGTH])
  exact ⟨⟨hm.1, hm.2.1⟩, h.2.2.1 _, h.2.2.2⟩

theorem matchLit_append : ∀ lit rest : List Char, matchLit lit (lit ++ rest) = some rest := by
  intro lit
  induction lit with
  | nil => intro rest; rfl
  | cons a la ih =>
    intro rest
    simp [matchLit, ih]

theorem matchCountPred_append {p : Char → Bool} :
    ∀ (n : Nat) (K rest : List Char), K.length = n → (∀ c ∈ K, p c = true) →
      matchCountPred p n (K ++ rest) = some rest := by
  intro n
  induction n with
  | zero =>
    intro K rest hlen _
    rw [List.length_eq_zero.mp hlen]
    rfl
  | succ m ih =>
    intro K rest hlen hall
    cases K with
    | nil => simp at hlen
    | cons c K2 =>
      have hc : p c = true := hall c (by simp)
      simp only [List.cons_append, matchCountPred, hc, if_true]
      exact ih K2 rest (by simpa using hlen) fun x hx => hall x (by simp [hx])

theorem takeWhile_append_all {α : Type} {p : α → Bool} :
    ∀ {T rest : List α}, (∀ a ∈ T, p a = true) →
      (T ++ rest).takeWhile p = T ++ rest.takeWhile p := by
  intro T
  induction T with
  | nil => intro rest _; rfl
  | cons a t ih =>
    intro rest h
    have ha : p a = true := h a (by simp)
    simp [List.takeWhile_cons, ha, ih fun x hx => h x (by simp [hx])]

theorem dropWhile_append_all {α : Type} {p : α → Bool} :
    ∀ {T rest : List α}, (∀ a ∈ T, p a = true) →
      (T ++ rest).dropWhile p = rest.dropWhile p := by
  intro T
  induction T with
  | nil => intro rest _; rfl
  | cons a t ih =>
    intro rest h
    have ha : p a = true := h a (by simp)
    simp [List.dropWhile_cons, ha, ih fun x hx => h x (by simp [hx])]

theorem dropWhile_eq_self_of_takeWhile_nil {α : Type} {p : α → Bool} {l : List α}
    (h : l.takeWhile p = []) : l.dropWhile p = l := by
  cases l with
  | nil => rfl
  | cons a t =>
    cases ha : p a with
    | false => simp [List.dropWhile_cons, ha]
    | true => rw [List.takeWhile_cons_of_pos ha] at h; simp at h

theorem matchMin5Pred_append {p : Char → Bool} {T rest : List Char}
    (hT : ∀ c ∈ T, p c = true) (h5 : 5 ≤ T.length) (hrest : rest.takeWhile p = []) :
    matchMin5Pred p (T ++ rest) = some rest := by
  unfold matchMin5Pred
  rw [takeWhile_append_all hT, hrest, dropWhile_append_all hT,
    dropWhile_eq_self_of_takeWhile_nil hrest]
  rw [if_pos (by simpa using h5)]

theorem matchTimestampAt_head_ne {c : Char} (h : c ≠ 't') (rest : List Char) :
    matchTimestampAt (c :: rest) = none := by
  have h1 : ("timestamp BETWEEN ").data = 't' :: ("imestamp BETWEEN ").data := rfl
  simp [matchTimestampAt, h1, matchLit, h]

theorem matchPubKeyAt_head_ne {c : Char} (h : c ≠ 'c') (rest : List Char) :
    matchPubKeyAt (c :: rest) = none := by
  have h1 : ("chat").data = 'c' :: ("hat").data := rfl
  simp [matchPubKeyAt, h1, matchLit, h]

theorem scanReplace_nil (matchAt : List Char → Option (List Char)) (repl : List Char) :
    ∀ fuel : Nat, scanReplace matchAt repl fuel [] = [] := by
  intro fuel
  cases fuel <;> rfl

theorem scanReplace_copy (matchAt : List Char → Option (List Char)) (repl : List Char)
    (P : Char → Prop) (hm : ∀ c rest, P c → matchAt (c :: rest) = none) :
    ∀ (fuel : Nat) (l : List Char), (∀ ch ∈ l, P ch) →
      scanReplace matchAt repl fuel l = l := by
  intro fuel
  induction fuel with
  | zero => intro l _; cases l <;> rfl
  | succ f ih =>
    intro l hl
    cases l with
    | nil => rfl
    | cons ch rest =>
      have hn := hm ch rest (hl ch (by simp))
      simp only [scanReplace, hn]
      rw [ih rest fun x hx => hl x (by simp [hx])]

/-- C8 counterexample: the anonymization step is pattern-based, not
value-based. `c8KeyInput` contains a 64-hexadecimal-character public key
(inside `public_key='...'`, but without the `chat` + separator prefix the
pattern requires), and `c8TsInput` contains a numeric timestamp range with
4-digit bounds (below the pattern's 5-digit minimum); `anonymizeQuery`
leaves both statements completely unchanged, so the logged text still
contains the key run and the timestamp range. -/
theorem c8_counterexample :
    containsHex64 c8KeyInput = true ∧
    anonymizeQuery c8KeyInput = c8KeyInput ∧
    containsHex64 (anonymizeQuery c8KeyInput) = true ∧
    anonymizeQuery c8TsInput = c8TsInput := by
  exact ⟨by decide, by decide, by decide, by decide⟩

theorem matchLit_length : ∀ lit l r : List Char, matchLit lit l = some r →
    l.length = lit.length + r.length := by
  intro lit
  induction lit with
  | nil =>
    intro l r h
    simp only [matchLit, Option.some.injEq] at h
    subst h
    simp
  | cons a la ih =>
    intro l r h
    cases l with
    | nil => simp [matchLit] at h
    | cons b lb =>
      simp only [matchLit] at h
      by_cases hba : b = a
      · rw [if_pos hba] at h
        have h2 := ih lb r h
        simp only [List.length_cons]
        omega
      · rw [if_neg hba] at h
        simp at h

theorem matchDotAt_length {l r : List Char} (h : matchDotAt l = some r) :
    l.length = 1 + r.length := by
  cases l with
  | nil => simp [matchDotAt] at h
  | cons c rest =>
    simp only [matchDotAt] at h
    by_cases hc : c = '\n'
    · rw [if_pos hc] at h
      simp at h
    · rw [if_neg hc] at h
      injection h with h
      subst h
      simp only [List.length_cons]
      omega

theorem matchCountPred_length {p : Char → Bool} :
    ∀ (n : Nat) (l r : List Char), matchCountPred p n l = some r →
      l.length = n + r.length := by
  intro n
  induction n with
  | zero =>
    intro l r h
    simp only [matchCountPred, Option.some.injEq] at h
    subst h
    simp
  | succ m ih =>
    intro l r h
    cases l with
    | nil => simp [matchCountPred] at h
    | cons c rest =>
      simp only [matchCountPred] at h
      by_cases hc : p c
      · rw [if_pos hc] at h
        have h2 := ih rest r h
        simp only [List.length_cons]
        omega
      · rw [if_neg hc] at h
        simp at h

theorem matchMin5Pred_length {p : Char → Bool} {l r : List Char}
    (h : matchMin5Pred p l = some r) : r.length + 5 ≤ l.length := by
  unfold matchMin5Pred at h
  by_cases h5 : 5 ≤ (l.takeWhile p).length
  · rw [if_pos h5] at h
    injection h with h
    subst h
    have h2 := congrArg List.length (List.takeWhile_append_dropWhile (p := p) (l := l))
    simp only [List.length_append] at h2
    omega
  · rw [if_neg h5] at h
    simp at h

theorem matchPubKeyAt_shrink : ∀ l r : List Char, matchPubKeyAt l = some r →
    r.length < l.length := by
  intro l r h
  unfold matchPubKeyAt at h
  rcases Option.bind_eq_some.mp h with ⟨l1, h1, h⟩
  rcases Option.bind_eq_some.mp h with ⟨l2, h2, h⟩
  rcases Option.bind_eq_some.mp h with ⟨l3, h3, h⟩
  rcases Option.bind_eq_some.mp h with ⟨l4, h4, h5⟩
  have e1 := matchLit_length _ _ _ h1
  have e2 := matchDotAt_length h2
  have e3 := matchLit_length _ _ _ h3
  have e4 := matchCountPred_length 64 _ _ h4
  have e5 := matchLit_length _ _ _ h5
  have c1 : ("chat").data.length = 4 := rfl
  have c3 : ((("public_key=").data ++ [apos])).length = 12 := rfl
  have c5 : ([apos] : List Char).length = 1 := rfl
  omega

theorem matchTimestampAt_shrink : ∀ l r : List Char, matchTimestampAt l = some r →
    r.length < l.length := by
  intro l r h
  unfold matchTimestampAt at h
  rcases Option.bind_eq_some.mp h with ⟨l1, h1, h⟩
  rcases Option.bind_eq_some.mp h with ⟨l2, h2, h⟩
  rcases Option.bind_eq_some.mp h with ⟨l3, h3, h4⟩
  have e1 := matchLit_length _ _ _ h1
  have e2 := matchMin5Pred_length h2
  have e3 := matchLit_length _ _ _ h3
  have e4 := matchMin5Pred_length h4
  have c1 : ("timestamp BETWEEN ").data.length = 18 := rfl
  have c3 : (" AND ").data.length = 5 := rfl
  omega

theorem scanReplace_fuel_irrel (matchAt : List Char → Option (List Char)) (repl : List Char)
    (hshrink : ∀ l r : List Char, matchAt l = some r → r.length < l.length) :
    ∀ (fuel1 fuel2 : Nat) (l : List Char), l.length ≤ fuel1 → l.length ≤ fuel2 →
      scanReplace matchAt repl fuel1 l = scanReplace matchAt repl fuel2 l := by
  intro fuel1
  induction fuel1 with
  | zero =>
    intro fuel2 l h1 _
    have hnil : l = [] := List.length_eq_zero.mp (Nat.le_zero.mp h1)
    subst hnil
    rw [scanReplace_nil, scanReplace_nil]
  | succ f1 ih =>
    intro fuel2 l h1 h2
    cases l with
    | nil => rw [scanReplace_nil, scanReplace_nil]
    | cons c rest =>
      cases fuel2 with
      | zero => simp at h2
      | succ f2 =>
        cases hm : matchAt (c :: rest) with
        | some r =>
          have hr := hshrink _ _ hm
          simp only [List.length_cons] at h1 h2 hr
          simp only [scanReplace, hm]
          rw [ih f2 r (by omega) (by omega)]
        | none =>
          simp only [List.length_cons] at h1 h2
          simp only [scanReplace, hm]
          rw [ih f2 rest (by omega) (by omega)]

theorem anyMatch_cons_false {matchAt : List Char → Option (List Char)} {c : Char}
    {rest : List Char} (h : anyMatch matchAt (c :: rest) = false) :
    matchAt (c :: rest) = none ∧ anyMatch matchAt rest = false := by
  cases hm : matchAt (c :: rest) with
  | none =>
    refine ⟨rfl, ?_⟩
    simp only [anyMatch, hm] at h
    simpa using h
  | some r =>
    simp only [anyMatch, hm] at h
    simp at h

theorem scanReplace_id_of_anyMatch_false (matchAt : List Char → Option (List Char))
    (repl : List Char) :
    ∀ (fuel : Nat) (l : List Char), anyMatch matchAt l = false →
      scanReplace matchAt repl fuel l = l := by
  intro fuel
  induction fuel with
  | zero => intro l _; cases l <;> rfl
  | succ f ih =>
    intro l hl
    cases l with
    | nil => rfl
    | cons c rest =>
      rcases anyMatch_cons_false hl with ⟨hm, hrest⟩
      simp only [scanReplace, hm]
      rw [ih rest hrest]

theorem scanReplace_leftmost (matchAt : List Char → Option (List Char)) (repl : List Char)
    (hshrink : ∀ l r : List Char, matchAt l = some r → r.length < l.length) :
    ∀ (pre occ post : List Char) (fuel : Nat),
      (pre ++ occ ++ post).length ≤ fuel →
      (∀ i, i < pre.length → matchAt ((pre ++ occ ++ post).drop i) = none) →
      matchAt (occ ++ post) = some post →
      scanReplace matchAt repl fuel (pre ++ occ ++ post) =
        pre ++ repl ++ scanReplace matchAt repl post.length post := by
  intro pre
  induction pre with
  | nil =>
    intro occ post fuel hfuel _ hocc
    cases occ with
    | nil =>
      simp only [List.nil_append] at hocc
      exact absurd (hshrink _ _ hocc) (lt_irrefl _)
    | cons a occ2 =>
      simp only [List.nil_append, List.cons_append] at hfuel hocc ⊢
      cases fuel with
      | zero =>
        simp only [List.length_cons] at hfuel
        omega
      | succ f =>
        simp only [scanReplace, hocc]
        have hb : post.length ≤ f := by
          simp only [List.length_cons, List.length_append] at hfuel
          omega
        rw [scanReplace_fuel_irrel matchAt repl hshrink f post.length post hb (le_refl _)]
  | cons c pr ih =>
    intro occ post fuel hfuel hpre hocc
    have h0 := hpre 0 (by simp)
    rw [List.drop_zero] at h0
    simp only [List.cons_append] at h0 hfuel ⊢
    cases fuel with
    | zero =>
      simp only [List.length_cons] at hfuel
      omega
    | succ f =>
      have hb : (pr ++ occ ++ post).length ≤ f := by
        simp only [List.length_cons] at hfuel
        omega
      have hh : ∀ i, i < pr.length → matchAt ((pr ++ occ ++ post).drop i) = none := by
        intro i hi
        have h2 := hpre (i + 1) (by simp only [List.length_cons]; omega)
        simpa [List.cons_append, List.drop_succ_cons] using h2
      simp only [scanReplace, h0]
      rw [ih occ post f hb hh hocc]

theorem matchPubKeyAt_occurrence (K : List Char) (hK64 : K.length = 64)
    (hKhex : ∀ ch ∈ K, isKeyHexChar ch = true) (c : Char) (hc : ¬ c = '\n')
    (post : List Char) :
    matchPubKeyAt (pubKeyOccurrence c K ++ post) = some post := by
  have hassoc : pubKeyOccurrence c K ++ post =
      ("chat").data ++ c :: ((("public_key=").data ++ [apos]) ++
        (K ++ ([apos] ++ post))) := by
    simp [pubKeyOccurrence]
  rw [hassoc]
  unfold matchPubKeyAt
  rw [matchLit_append, Option.some_bind]
  simp only [matchDotAt]
  rw [if_neg hc, Option.some_bind, matchLit_append, Option.some_bind,
    matchCountPred_append 64 K ([apos] ++ post) hK64 hKhex, Option.some_bind,
    matchLit_append]

theorem matchTimestampAt_occurrence (T1 T2 : List Char) (hT1 : 5 ≤ T1.length)
    (hT1d : ∀ ch ∈ T1, ch.isDigit = true) (hT2 : 5 ≤ T2.length)
    (hT2d : ∀ ch ∈ T2, ch.isDigit = true) (post : List Char)
    (hpost : post.takeWhile Char.isDigit = []) :
    matchTimestampAt (timestampOccurrence T1 T2 ++ post) = some post := by
  have hassoc : timestampOccurrence T1 T2 ++ post =
      ("timestamp BETWEEN ").data ++ (T1 ++ ((" AND ").data ++ (T2 ++ post))) := by
    simp [timestampOccurrence]
  rw [hassoc]
  unfold matchTimestampAt
  rw [matchLit_append, Option.some_bind]
  have hand : ((" AND ").data ++ (T2 ++ post)).takeWhile Char.isDigit = [] := by
    have h0 : (" AND ").data ++ (T2 ++ post) = ' ' :: (("AND ").data ++ (T2 ++ post)) := rfl
    rw [h0, List.takeWhile_cons_of_neg (by decide)]
  rw [matchMin5Pred_append hT1d hT1 hand, Option.some_bind, matchLit_append,
    Option.some_bind, matchMin5Pred_append hT2d hT2 hpost]

/-- C8 amended: the anonymization replaces exactly the occurrences of the
two literal patterns — `chat` followed by any non-newline character,
`public_key='`, 64 characters of `[A-F0-9]` and a closing quote; and
`timestamp BETWEEN `, a maximal run of at least 5 digits, ` AND `, and
another such run — by their placeholders, scanning each query left to
right and copying everything else verbatim; sensitive values not matching
these exact patterns (as in the counterexample) are passed through to the
log unchanged. Stated for arbitrary query strings: (1) a query with no
occurrence of either pattern is logged unchanged; (2) and (3): in each
replace pass, the leftmost pattern occurrence — after an arbitrary
non-matching prefix and with an arbitrary tail — is replaced by the
placeholder, and the scan continues on the tail; (4) and (5): end to end,
a query consisting of one pattern occurrence between arbitrary
otherwise-pattern-free text is logged with exactly that occurrence
replaced. -/
theorem c8_amended_anonymize_query :
    (∀ q : String, anyMatch matchPubKeyAt q.data = false →
      anyMatch matchTimestampAt q.data = false → anonymizeQuery q = q) ∧
    (∀ (pre post K : List Char) (c : Char) (fuel : Nat),
      K.length = 64 → (∀ ch ∈ K, isKeyHexChar ch = true) → ¬ c = '\n' →
      (pre ++ pubKeyOccurrence c K ++ post).length ≤ fuel →
      (∀ i, i < pre.length →
        matchPubKeyAt ((pre ++ pubKeyOccurrence c K ++ post).drop i) = none) →
      scanReplace matchPubKeyAt pubKeyPlaceholder fuel
          (pre ++ pubKeyOccurrence c K ++ post) =
        pre ++ pubKeyPlaceholder ++ replacePubKeys post) ∧
    (∀ (pre post T1 T2 : List Char) (fuel : Nat),
      5 ≤ T1.length → (∀ ch ∈ T1, ch.isDigit = true) →
      5 ≤ T2.length → (∀ ch ∈ T2, ch.isDigit = true) →
      post.takeWhile Char.isDigit = [] →
      (pre ++ timestampOccurrence T1 T2 ++ post).length ≤ fuel →
      (∀ i, i < pre.length →
        matchTimestampAt ((pre ++ timestampOccurrence T1 T2 ++ post).drop i) = none) →
      scanReplace matchTimestampAt tsPlaceholder fuel
          (pre ++ timestampOccurrence T1 T2 ++ post) =
        pre ++ tsPlaceholder ++ replaceTimestamps post) ∧
    (∀ (pre post K : List Char) (c : Char),
      K.length = 64 → (∀ ch ∈ K, isKeyHexChar ch = true) → ¬ c = '\n' →
      (∀ i, i < pre.length →
        matchPubKeyAt ((pre ++ pubKeyOccurrence c K ++ post).drop i) = none) →
      anyMatch matchPubKeyAt post = false →
      anyMatch matchTimestampAt (pre ++ pubKeyPlaceholder ++ post) = false →
      anonymizeQuery ⟨pre ++ pubKeyOccurrence c K ++ post⟩ =
        ⟨pre ++ pubKeyPlaceholder ++ post⟩) ∧
    (∀ (pre post T1 T2 : List Char),
      5 ≤ T1.length → (∀ ch ∈ T1, ch.isDigit = true) →
      5 ≤ T2.length → (∀ ch ∈ T2, ch.isDigit = true) →
      post.takeWhile Char.isDigit = [] →
      anyMatch matchPubKeyAt (pre ++ timestampOccurrence T1 T2 ++ post) = false →
      (∀ i, i < pre.length →
        matchTimestampAt ((pre ++ timestampOccurrence T1 T2 ++ post).drop i) = none) →
      anyMatch matchTimestampAt post = false →
      anonymizeQuery ⟨pre ++ timestampOccurrence T1 T2 ++ post⟩ =
        ⟨pre ++ tsPlaceholder ++ post⟩) := by
  have hpk : ∀ (pre post K : List Char) (c : Char) (fuel : Nat),
      K.length = 64 → (∀ ch ∈ K, isKeyHexChar ch = true) → ¬ c = '\n' →
      (pre ++ pubKeyOccurrence c K ++ post).length ≤ fuel →
      (∀ i, i < pre.length →
        matchPubKeyAt ((pre ++ pubKeyOccurrence c K ++ post).drop i) = none) →
      scanReplace matchPubKeyAt pubKeyPlaceholder fuel
          (pre ++ pubKeyOccurrence c K ++ post) =
        pre ++ pubKeyPlaceholder ++ replacePubKeys post := by
    intro pre post K c fuel hK64 hKhex hc hfuel hpre
    exact scanReplace_leftmost matchPubKeyAt pubKeyPlaceholder matchPubKeyAt_shrink
      pre (pubKeyOccurrence c K) post fuel hfuel hpre
      (matchPubKeyAt_occurrence K hK64 hKhex c hc post)
  have hts : ∀ (pre post T1 T2 : List Char) (fuel : Nat),
      5 ≤ T1.length → (∀ ch ∈ T1, ch.isDigit = true) →
      5 ≤ T2.length → (∀ ch ∈ T2, ch.isDigit = true) →
      post.takeWhile Char.isDigit = [] →
      (pre ++ timestampOccurrence T1 T2 ++ post).length ≤ fuel →
      (∀ i, i < pre.length →
        matchTimestampAt ((pre ++ timestampOccurrence T1 T2 ++ post).drop i) = none) →
      scanReplace matchTimestampAt tsPlaceholder fuel
          (pre ++ timestampOccurrence T1 T2 ++ post) =
        pre ++ tsPlaceholder ++ replaceTimestamps post := by
    intro pre post T1 T2 fuel hT1 hT1d hT2 hT2d hpostd hfuel hpre
    exact scanReplace_leftmost matchTimestampAt tsPlaceholder matchTimestampAt_shrink
      pre (timestampOccurrence T1 T2) post fuel hfuel hpre
      (matchTimestampAt_occurrence T1 T2 hT1 hT1d hT2 hT2d post hpostd)
  refine ⟨?_, hpk, hts, ?_, ?_⟩
  · intro q hq1 hq2
    show (⟨replaceTimestamps (replacePubKeys q.data)⟩ : String) = q
    rw [show replacePubKeys q.data = q.data from
      scanReplace_id_of_anyMatch_false _ _ _ _ hq1]
    rw [show replaceTimestamps q.data = q.data from
      scanReplace_id_of_anyMatch_false _ _ _ _ hq2]
  · intro pre post K c hK64 hKhex hc hpre hpost1 hts2
    have hstep1 : replacePubKeys (pre ++ pubKeyOccurrence c K ++ post) =
        pre ++ pubKeyPlaceholder ++ post := by
      rw [show replacePubKeys (pre ++ pubKeyOccurrence c K ++ post) =
          scanReplace matchPubKeyAt pubKeyPlaceholder
            (pre ++ pubKeyOccurrence c K ++ post).length
            (pre ++ pubKeyOccurrence c K ++ post) from rfl]
      rw [hpk pre post K c _ hK64 hKhex hc (le_refl _) hpre]
      rw [show replacePubKeys post = post from
        scanReplace_id_of_anyMatch_false _ _ _ _ hpost1]
    have hstep2 : replaceTimestamps (pre ++ pubKeyPlaceholder ++ post) =
        pre ++ pubKeyPlaceholder ++ post :=
      scanReplace_id_of_anyMatch_false _ _ _ _ hts2
    show (⟨replaceTimestamps (replacePubKeys (pre ++ pubKeyOccurrence c K ++ post))⟩ :
        String) = ⟨pre ++ pubKeyPlaceholder ++ post⟩
    rw [hstep1, hstep2]
  · intro pre post T1 T2 hT1 hT1d hT2 hT2d hpostd hpk2 hpre hpostts
    have hstep1 : replacePubKeys (pre ++ timestampOccurrence T1 T2 ++ post) =
        pre ++ timestampOccurrence T1 T2 ++ post :=
      scanReplace_id_of_anyMatch_false _ _ _ _ hpk2
    have hstep2 : replaceTimestamps (pre ++ timestampOccurrence T1 T2 ++ post) =
        pre ++ tsPlaceholder ++ post := by
      rw [show replaceTimestamps (pre ++ timestampOccurrence T1 T2 ++ post) =
          scanReplace matchTimestampAt tsPlaceholder
            (pre ++ timestampOccurrence T1 T2 ++ post).length
            (pre ++ timestampOccurrence T1 T2 ++ post) from rfl]
      rw [hts pre post T1 T2 _ hT1 hT1d hT2 hT2d hpostd (le_refl _) hpre]
      rw [show replaceTimestamps post = post from
        scanReplace_id_of_anyMatch_false _ _ _ _ hpostts]
    show (⟨replaceTimestamps (replacePubKeys
        (pre ++ timestampOccurrence T1 T2 ++ post))⟩ : String) =
      ⟨pre ++ tsPlaceholder ++ post⟩
    rw [hstep1, hstep2]

/-- C8 amended witness: concrete instances of each part — a pattern-free
query is logged unchanged; a public-key occurrence after `WHERE ` with a
trailing `;` is replaced in the first pass; a timestamp occurrence in
context is replaced in the second pass; and end to end, queries embedding
one occurrence between ordinary SQL text come out with exactly the
occurrence replaced. -/
theorem c8_amended_anonymize_query_witness :
    anonymizeQuery "SELECT 42" = "SELECT 42" ∧
    scanReplace matchPubKeyAt pubKeyPlaceholder
        (("WHERE ").data ++ pubKeyOccurrence '.' (List.replicate 64 'A') ++
          (";").data).length
        (("WHERE ").data ++ pubKeyOccurrence '.' (List.replicate 64 'A') ++ (";").data) =
      ("WHERE ").data ++ pubKeyPlaceholder ++ replacePubKeys (";").data ∧
    scanReplace matchTimestampAt tsPlaceholder
        (("WHERE ").data ++ timestampOccurrence ("12345").data ("67890").data ++
          (" OR x").data).length
        (("WHERE ").data ++ timestampOccurrence ("12345").data ("67890").data ++
          (" OR x").data) =
      ("WHERE ").data ++ tsPlaceholder ++ replaceTimestamps (" OR x").data ∧
    anonymizeQuery
        ⟨("DELETE FROM history WHERE ").data ++
          pubKeyOccurrence '.' (List.replicate 64 'A') ++ (";").data⟩ =
      ⟨("DELETE FROM history WHERE ").data ++ pubKeyPlaceholder ++ (";").data⟩ ∧
    anonymizeQuery
        ⟨("SELECT x WHERE ").data ++
          timestampOccurrence ("12345").data ("67890").data ++ (";").data⟩ =
      ⟨("SELECT x WHERE ").data ++ tsPlaceholder ++ (";").data⟩ := by
  have h := c8_amended_anonymize_query
  refine ⟨h.1 "SELECT 42" (by decide) (by decide), ?_, ?_, ?_, ?_⟩
  · exact h.2.1 ("WHERE ").data (";").data (List.replicate 64 'A') '.' _
      (by decide) (by decide) (by decide) (le_refl _) (by decide)
  · exact h.2.2.1 ("WHERE ").data (" OR x").data ("12345").data ("67890").data _
      (by decide) (by decide) (by decide) (by decide) (by decide) (le_refl _) (by decide)
  · exact h.2.2.2.1 ("DELETE FROM history WHERE ").data (";").data
      (List.replicate 64 'A') '.' (by decide) (by decide) (by decide) (by decide)
      (by decide) (by decide)
  · exact h.2.2.2.2 ("SELECT x WHERE ").data (";").data ("12345").data ("67890").data
      (by decide) (by decide) (by decide) (by decide) (by decide) (by decide) (by decide)
      (by decide)

theorem path_ne_tmp (s : String) : s ≠ s ++ ".tmp" := by
  intro h
  have h2 : s.length = (s ++ ".tmp").length := congrArg String.length h
  rw [String.length_append] at h2
  have h3 : (".tmp" : String).length = 4 := rfl
  omega

theorem tmp_ne_path (s : String) : s ++ ".tmp" ≠ s := fun h => path_ne_tmp s h.symm

theorem fsSet_same (fs : FileSystem) (p : String) (f : DbFile) : fsSet fs p f p = some f := by
  simp [fsSet]

theorem fsSet_other (fs : FileSystem) (p q : String) (f : DbFile) (h : q ≠ p) :
    fsSet fs p f q = fs q := by
  simp [fsSet, h]

theorem fsRemove_same (fs : FileSystem) (p : String) : fsRemove fs p p = none := by
  simp [fsRemove]

theorem fsRemove_other (fs : FileSystem) (p q : String) (h : q ≠ p) :
    fsRemove fs p q = fs q := by
  simp [fsRemove, h]

theorem openDb_fs_eq {o : LifeOracle} {path hexKey : String} {fs : FileSystem} {g : DbFile}
    (h : fs path = some g) : (openDb o path hexKey fs).2 = fs := by
  unfold openDb
  have h1 : ¬((fs path).isNone = true ∧ (fs (path ++ ".tmp")).isSome = true) := by
    simp [h]
  rw [if_neg h1]
  cases hso : o.sqliteOpenOk with
  | false => rfl
  | true =>
    simp only [Bool.not_true, Bool.false_eq_true, if_false, h]
    cases hc1 : o.createRegexpOk with
    | false => rfl
    | true =>
      cases hc2 : o.createRegexpSensitiveOk with
      | false => rfl
      | true =>
        simp only [Bool.not_true, Bool.false_eq_true, if_false]
        by_cases henc : hexKey ≠ "" ∧ o.encOpenOk hexKey = false
        · rw [if_pos henc]
        · rw [if_neg henc]

/-- C9: calling `setPassword` with the empty password on an open,
currently unencrypted store returns `true` and performs no export, no file
swap and no change to the database file or the current key: the resulting
state only has its queue drained, and the filesystem is unchanged except
that a stray leftover `.tmp` sibling, if present, is deleted before the
emptiness check. -/
theorem c9_set_password_empty_noop (o : LifeOracle) (st : St) (fs : FileSystem)
    (hopen : st.sqliteOpen = true) (hkey : st.currentHexKey = "") :
    setPassword o "" st fs =
      (true, {st with pending := 0},
        if (fs (st.path ++ ".tmp")).isSome then fsRemove fs (st.path ++ ".tmp") else fs) ∧
    (setPassword o "" st fs).2.2 st.path = fs st.path ∧
    (setPassword o "" st fs).2.1.currentHexKey = st.currentHexKey ∧
    (setPassword o "" st fs).2.1.sqliteOpen = true ∧
    (setPassword o "" st fs).2.1.path = st.path := by
  have hmain : setPassword o "" st fs = (true, {st with pending := 0},
      if (fs (st.path ++ ".tmp")).isSome then fsRemove fs (st.path ++ ".tmp") else fs) := by
    unfold setPassword
    rw [hopen]
    simp [hkey]
  refine ⟨hmain, ?_, by rw [hmain], by rw [hmain]; exact hopen, by rw [hmain]⟩
  rw [hmain]
  by_cases htmp : (fs (st.path ++ ".tmp")).isSome
  · simp only [htmp, if_true]
    exact fsRemove_other fs _ _ (path_ne_tmp st.path)
  · simp [htmp]

/-- C9 witness: concrete open plaintext store with a stray `.tmp` file:
`setPassword("")` returns `true`, deletes only the `.tmp` file and leaves
state and database file unchanged. -/
theorem c9_set_password_empty_noop_witness :
    (setPassword
        ⟨true, true, true, fun _ => true, true, true, true, true, true, true, true, true,
          ⟨fun _ => true, fun _ => true, fun _ => true⟩⟩
        "" ⟨true, "db", [], "", 3⟩
        (fun q => if q = "db" then some ⟨7, "", 5⟩
          else if q = "db.tmp" then some ⟨0, "", 0⟩ else none)).1 = true ∧
    (setPassword
        ⟨true, true, true, fun _ => true, true, true, true, true, true, true, true, true,
          ⟨fun _ => true, fun _ => true, fun _ => true⟩⟩
        "" ⟨true, "db", [], "", 3⟩
        (fun q => if q = "db" then some ⟨7, "", 5⟩
          else if q = "db.tmp" then some ⟨0, "", 0⟩ else none)).2.2 "db" =
      some ⟨7, "", 5⟩ ∧
    (setPassword
        ⟨true, true, true, fun _ => true, true, true, true, true, true, true, true, true,
          ⟨fun _ => true, fun _ => true, fun _ => true⟩⟩
        "" ⟨true, "db", [], "", 3⟩
        (fun q => if q = "db" then some ⟨7, "", 5⟩
          else if q = "db.tmp" then some ⟨0, "", 0⟩ else none)).2.1.currentHexKey = "" := by
  have h := c9_set_password_empty_noop
    ⟨true, true, true, fun _ => true, true, true, true, true, true, true, true, true,
      ⟨fun _ => true, fun _ => true, fun _ => true⟩⟩
    ⟨true, "db", [], "", 3⟩
    (fun q => if q = "db" then some ⟨7, "", 5⟩
      else if q = "db.tmp" then some ⟨0, "", 0⟩ else none)
    rfl rfl
  refine ⟨by rw [h.1], ?_, ?_⟩
  · rw [h.2.1]
    decide
  · rw [h.2.2.1]

/-- C6: `rename(newPath)` on an open store first drains the pending
transactions; then, when `newPath` equals the current path it returns
success with nothing closed or moved; when a file already exists at
`newPath` it returns failure with the store still open at the old path and
the filesystem untouched; otherwise it closes the handle, moves the file
from the old path to `newPath`, and reopens at `newPath` with the existing
key (the result being the reopen's result). -/
theorem c6_rename (o : LifeOracle) (st : St) (fs : FileSystem) (newPath : String)
    (hopen : st.sqliteOpen = true) :
    (st.path = newPath → renameDb o newPath st fs = (true, {st with pending := 0}, fs)) ∧
    (st.path ≠ newPath → (fs newPath).isSome = true →
      renameDb o newPath st fs = (false, {st with pending := 0}, fs)) ∧
    (∀ f : DbFile, st.path ≠ newPath → fs newPath = none → fs st.path = some f →
      renameDb o newPath st fs =
        ((openDb o newPath st.currentHexKey (fsSet (fsRemove fs st.path) newPath f)).1,
          {st with
            pending := 0,
            sqliteOpen := (openDb o newPath st.currentHexKey
              (fsSet (fsRemove fs st.path) newPath f)).1,
            path := newPath},
          fsSet (fsRemove fs st.path) newPath f) ∧
      (renameDb o newPath st fs).2.2 newPath = some f ∧
      (renameDb o newPath st fs).2.2 st.path = none ∧
      (renameDb o newPath st fs).2.1.currentHexKey = st.currentHexKey) := by
  refine ⟨?_, ?_, ?_⟩
  · intro heq
    unfold renameDb
    rw [hopen]
    simp [heq]
  · intro hne hsome
    unfold renameDb
    rw [hopen]
    simp [hne, hsome]
  · intro f hne hnone hsrc
    have hrr : fsRename fs st.path newPath = (true, fsSet (fsRemove fs st.path) newPath f) := by
      unfold fsRename
      rw [hsrc]
      simp [hnone]
    have hset : fsSet (fsRemove fs st.path) newPath f newPath = some f := fsSet_same _ _ _
    have hfs : (openDb o newPath st.currentHexKey (fsSet (fsRemove fs st.path) newPath f)).2 =
        fsSet (fsRemove fs st.path) newPath f := openDb_fs_eq hset
    have hmain : renameDb o newPath st fs =
        ((openDb o newPath st.currentHexKey (fsSet (fsRemove fs st.path) newPath f)).1,
          {st with
            pending := 0,
            sqliteOpen := (openDb o newPath st.currentHexKey
              (fsSet (fsRemove fs st.path) newPath f)).1,
            path := newPath},
          fsSet (fsRemove fs st.path) newPath f) := by
      unfold renameDb
      rw [hopen]
      simp [hne, hnone, hrr, hfs, closeDb]
    refine ⟨hmain, by rw [hmain]; exact hset, ?_, by rw [hmain]⟩
    rw [hmain]
    show fsSet (fsRemove fs st.path) newPath f st.path = none
    rw [fsSet_other _ _ _ _ hne, fsRemove_same]

/-- C6 witness: concrete open store at path "a" with a file at "a": rename
to "a" is a success no-op; rename to "b" while a file exists at "b" fails
leaving the store open at "a"; rename to "c" (no file there) moves the
file and reopens successfully at "c". -/
theorem c6_rename_witness :
    renameDb
        ⟨true, true, true, fun _ => true, true, true, true, true, true, true, true, true,
          ⟨fun _ => true, fun _ => true, fun _ => true⟩⟩
        "a" ⟨true, "a", [], "", 2⟩
        (fun q => if q = "a" then some ⟨7, "", 5⟩
          else if q = "b" then some ⟨1, "", 1⟩ else none) =
      (true, ⟨true, "a", [], "", 0⟩,
        fun q => if q = "a" then some ⟨7, "", 5⟩
          else if q = "b" then some ⟨1, "", 1⟩ else none) ∧
    renameDb
        ⟨true, true, true, fun _ => true, true, true, true, true, true, true, true, true,
          ⟨fun _ => true, fun _ => true, fun _ => true⟩⟩
        "b" ⟨true, "a", [], "", 2⟩
        (fun q => if q = "a" then some ⟨7, "", 5⟩
          else if q = "b" then some ⟨1, "", 1⟩ else none) =
      (false, ⟨true, "a", [], "", 0⟩,
        fun q => if q = "a" then some ⟨7, "", 5⟩
          else if q = "b" then some ⟨1, "", 1⟩ else none) ∧
    (renameDb
        ⟨true, true, true, fun _ => true, true, true, true, true, true, true, true, true,
          ⟨fun _ => true, fun _ => true, fun _ => true⟩⟩
        "c" ⟨true, "a", [], "", 2⟩
        (fun q => if q = "a" then some ⟨7, "", 5⟩
          else if q = "b" then some ⟨1, "", 1⟩ else none)).2.2 "c" = some ⟨7, "", 5⟩ ∧
    (renameDb
        ⟨true, true, true, fun _ => true, true, true, true, true, true, true, true, true,
          ⟨fun _ => true, fun _ => true, fun _ => true⟩⟩
        "c" ⟨true, "a", [], "", 2⟩
        (fun q => if q = "a" then some ⟨7, "", 5⟩
          else if q = "b" then some ⟨1, "", 1⟩ else none)).2.2 "a" = none := by
  have h := c6_rename
    ⟨true, true, true, fun _ => true, true, true, true, true, true, true, true, true,
      ⟨fun _ => true, fun _ => true, fun _ => true⟩⟩
    ⟨true, "a", [], "", 2⟩
    (fun q => if q = "a" then some ⟨7, "", 5⟩
      else if q = "b" then some ⟨1, "", 1⟩ else none)
    "a" rfl
  have h2 := c6_rename
    ⟨true, true, true, fun _ => true, true, true, true, true, true, true, true, true,
      ⟨fun _ => true, fun _ => true, fun _ => true⟩⟩
    ⟨true, "a", [], "", 2⟩
    (fun q => if q = "a" then some ⟨7, "", 5⟩
      else if q = "b" then some ⟨1, "", 1⟩ else none)
    "b" rfl
  have h3 := c6_rename
    ⟨true, true, true, fun _ => true, true, true, true, true, true, true, true, true,
      ⟨fun _ => true, fun _ => true, fun _ => true⟩⟩
    ⟨true, "a", [], "", 2⟩
    (fun q => if q = "a" then some ⟨7, "", 5⟩
      else if q = "b" then some ⟨1, "", 1⟩ else none)
    "c" rfl
  have h3m := h3.2.2 ⟨7, "", 5⟩ (by decide) (by decide) (by decide)
  exact ⟨h.1 rfl, h2.2.1 (by decide) (by decide), h3m.2.1, h3m.2.2.1⟩

theorem commitDbSwap_spec (o : LifeOracle) (key : String) (st : St) (fs : FileSystem)
    (g : DbFile) (hg : fs (st.path ++ ".tmp") = some g) :
    (commitDbSwap o key st fs).2.1.path = st.path ∧
    (commitDbSwap o key st fs).2.1.currentHexKey = key ∧
    (commitDbSwap o key st fs).2.2 st.path = some g := by
  have h1 : fsRemove fs st.path (st.path ++ ".tmp") = some g := by
    rw [fsRemove_other _ _ _ (tmp_ne_path st.path)]
    exact hg
  have h2 : fsRemove fs st.path st.path = none := fsRemove_same _ _
  have h3 : fsRename (fsRemove fs st.path) (st.path ++ ".tmp") st.path =
      (true, fsSet (fsRemove (fsRemove fs st.path) (st.path ++ ".tmp")) st.path g) := by
    unfold fsRename
    rw [h1]
    simp [h2]
  have h4 : fsSet (fsRemove (fsRemove fs st.path) (st.path ++ ".tmp")) st.path g st.path =
      some g := fsSet_same _ _ _
  have h5 : (openDb o st.path key
      (fsSet (fsRemove (fsRemove fs st.path) (st.path ++ ".tmp")) st.path g)).2 =
      fsSet (fsRemove (fsRemove fs st.path) (st.path ++ ".tmp")) st.path g :=
    openDb_fs_eq h4
  simp only [commitDbSwap, h3, h5]
  exact ⟨trivial, trivial, h4⟩

theorem updateSavedCipherParameters_preserves_uv (o : LifeOracle) (hexKey : String)
    (newParams : SqlCipherParams) (st : St) (fs : FileSystem) (f : DbFile)
    (hf : fs st.path = some f)
    (h : (updateSavedCipherParameters o hexKey newParams st fs).1 = true) :
    (updateSavedCipherParameters o hexKey newParams st fs).2.1.path = st.path ∧
    ∃ g : DbFile,
      (updateSavedCipherParameters o hexKey newParams st fs).2.2 st.path = some g ∧
      g.userVersion = f.userVersion := by
  cases hsp : o.setParamsMainOk with
  | false => simp [updateSavedCipherParameters, hsp] at h
  | true =>
  cases hruv : o.readUserVersionOk with
  | false => simp [updateSavedCipherParameters, getUserVersion, hsp, hruv] at h
  | true =>
  by_cases huv : f.userVersion < 0
  · simp [updateSavedCipherParameters, getUserVersion, hsp, hruv, hf, huv] at h
  · cases hat : o.attachOk with
    | false => simp [updateSavedCipherParameters, getUserVersion, hsp, hruv, hf, huv, hat] at h
    | true =>
    cases hsa : o.setParamsAttachedOk with
    | false =>
      simp [updateSavedCipherParameters, getUserVersion, hsp, hruv, hf, huv, hat, hsa] at h
    | true =>
    cases hex : o.exportOk with
    | false =>
      simp [updateSavedCipherParameters, getUserVersion, hsp, hruv, hf, huv, hat, hsa,
        hex] at h
    | true =>
    cases hsuv : o.setUserVersionOk with
    | false =>
      simp [updateSavedCipherParameters, getUserVersion, hsp, hruv, hf, huv, hat, hsa, hex,
        fsSet_same, fsSet_other _ _ _ _ (path_ne_tmp st.path), hsuv] at h
    | true =>
    cases hdet : o.detachOk with
    | false =>
      simp [updateSavedCipherParameters, getUserVersion, hsp, hruv, hf, huv, hat, hsa, hex,
        fsSet_same, fsSet_other _ _ _ _ (path_ne_tmp st.path), hsuv, hdet] at h
    | true =>
    have l1 : fsSet fs (st.path ++ ".tmp") ⟨0, hexKey, 0⟩ st.path = some f := by
      rw [fsSet_other _ _ _ _ (path_ne_tmp st.path)]
      exact hf
    have e1 : updateSavedCipherParameters o hexKey newParams st fs =
        commitDbSwap o hexKey st
          (fsSet (fsSet (fsSet fs (st.path ++ ".tmp") ⟨0, hexKey, 0⟩) (st.path ++ ".tmp")
            ⟨0, hexKey, f.content⟩) (st.path ++ ".tmp")
            ⟨f.userVersion, hexKey, f.content⟩) := by
      simp [updateSavedCipherParameters, getUserVersion, hsp, hruv, hf, huv, hat, hsa, hex,
        hsuv, hdet, l1, fsSet_same]
    rcases commitDbSwap_spec o hexKey st _ ⟨f.userVersion, hexKey, f.content⟩
      (fsSet_same _ _ _) with ⟨p1, _, p3⟩
    rw [e1]
    exact ⟨p1, ⟨f.userVersion, hexKey, f.content⟩, p3, rfl⟩

theorem encryptDatabase_preserves_uv (o : LifeOracle) (newHexKey : String) (st : St)
    (fs : FileSystem) (f : DbFile) (hf : fs st.path = some f)
    (h : (encryptDatabase o newHexKey st fs).1 = true) :
    (encryptDatabase o newHexKey st fs).2.1.path = st.path ∧
    ∃ g : DbFile,
      (encryptDatabase o newHexKey st fs).2.2 st.path = some g ∧
      g.userVersion = f.userVersion := by
  cases hruv : o.readUserVersionOk with
  | false => simp [encryptDatabase, getUserVersion, hruv] at h
  | true =>
  by_cases huv : f.userVersion < 0
  · simp [encryptDatabase, getUserVersion, hruv, hf, huv] at h
  · cases hat : o.attachOk with
    | false => simp [encryptDatabase, getUserVersion, hruv, hf, huv, hat] at h
    | true =>
    cases hsa : o.setParamsAttachedOk with
    | false => simp [encryptDatabase, getUserVersion, hruv, hf, huv, hat, hsa] at h
    | true =>
    cases hex : o.exportOk with
    | false => simp [encryptDatabase, getUserVersion, hruv, hf, huv, hat, hsa, hex] at h
    | true =>
    cases hsuv : o.setUserVersionOk with
    | false =>
      simp [encryptDatabase, getUserVersion, hruv, hf, huv, hat, hsa, hex, fsSet_same,
        fsSet_other _ _ _ _ (path_ne_tmp st.path), hsuv] at h
    | true =>
    cases hdet : o.detachOk with
    | false =>
      simp [encryptDatabase, getUserVersion, hruv, hf, huv, hat, hsa, hex, fsSet_same,
        fsSet_other _ _ _ _ (path_ne_tmp st.path), hsuv, hdet] at h
    | true =>
    have l1 : fsSet fs (st.path ++ ".tmp") ⟨0, newHexKey, 0⟩ st.path = some f := by
      rw [fsSet_other _ _ _ _ (path_ne_tmp st.path)]
      exact hf
    have e1 : encryptDatabase o newHexKey st fs =
        commitDbSwap o newHexKey st
          (fsSet (fsSet (fsSet fs (st.path ++ ".tmp") ⟨0, newHexKey, 0⟩) (st.path ++ ".tmp")
            ⟨0, newHexKey, f.content⟩) (st.path ++ ".tmp")
            ⟨f.userVersion, newHexKey, f.content⟩) := by
      simp [encryptDatabase, getUserVersion, hruv, hf, huv, hat, hsa, hex, hsuv, hdet, l1,
        fsSet_same]
    rcases commitDbSwap_spec o newHexKey st _ ⟨f.userVersion, newHexKey, f.content⟩
      (fsSet_same _ _ _) with ⟨p1, _, p3⟩
    rw [e1]
    exact ⟨p1, ⟨f.userVersion, newHexKey, f.content⟩, p3, rfl⟩

theorem decryptDatabase_preserves_uv (o : LifeOracle) (st : St) (fs : FileSystem)
    (f : DbFile) (hf : fs st.path = some f)
    (h : (decryptDatabase o st fs).1 = true) :
    (decryptDatabase o st fs).2.1.path = st.path ∧
    ∃ g : DbFile,
      (decryptDatabase o st fs).2.2 st.path = some g ∧
      g.userVersion = f.userVersion := by
  cases hruv : o.readUserVersionOk with
  | false => simp [decryptDatabase, getUserVersion, hruv] at h
  | true =>
  by_cases huv : f.userVersion < 0
  · simp [decryptDatabase, getUserVersion, hruv, hf, huv] at h
  · cases hae : o.attachOk && o.exportOk with
    | false => simp [decryptDatabase, getUserVersion, hruv, hf, huv, hae] at h
    | true =>
    cases hsuv : o.setUserVersionOk with
    | false =>
      simp [decryptDatabase, getUserVersion, hruv, hf, huv, hae, fsSet_same, hsuv] at h
    | true =>
    cases hdet : o.detachOk with
    | false =>
      simp [decryptDatabase, getUserVersion, hruv, hf, huv, hae, fsSet_same, hsuv,
        hdet] at h
    | true =>
    have e1 : decryptDatabase o st fs =
        commitDbSwap o "" st
          (fsSet (fsSet fs (st.path ++ ".tmp") ⟨0, "", f.content⟩) (st.path ++ ".tmp")
            ⟨f.userVersion, "", f.content⟩) := by
      simp [decryptDatabase, getUserVersion, hruv, hf, huv, hae, hsuv, hdet, fsSet_same]
    rcases commitDbSwap_spec o "" st _ ⟨f.userVersion, "", f.content⟩
      (fsSet_same _ _ _) with ⟨p1, _, p3⟩
    rw [e1]
    exact ⟨p1, ⟨f.userVersion, "", f.content⟩, p3, rfl⟩

/-- C7: every export-and-swap operation — the cipher-parameter migration
`updateSavedCipherParameters`, the encryption `encryptDatabase` of a
plaintext store, and the decryption `decryptDatabase` of an encrypted
store — preserves the engine's `user_version` counter: the counter is read
from the original database before the export and written into the
replacement file before the swap, so whenever the operation succeeds the
value observed at the store's path afterwards equals the value before. -/
theorem c7_user_version_preserved (o : LifeOracle) (st : St) (fs : FileSystem) (f : DbFile)
    (hexKey newHexKey : String) (newParams : SqlCipherParams) (hf : fs st.path = some f) :
    ((updateSavedCipherParameters o hexKey newParams st fs).1 = true →
      (updateSavedCipherParameters o hexKey newParams st fs).2.1.path = st.path ∧
      ∃ g : DbFile,
        (updateSavedCipherParameters o hexKey newParams st fs).2.2 st.path = some g ∧
        g.userVersion = f.userVersion) ∧
    ((encryptDatabase o newHexKey st fs).1 = true →
      (encryptDatabase o newHexKey st fs).2.1.path = st.path ∧
      ∃ g : DbFile,
        (encryptDatabase o newHexKey st fs).2.2 st.path = some g ∧
        g.userVersion = f.userVersion) ∧
    ((decryptDatabase o st fs).1 = true →
      (decryptDatabase o st fs).2.1.path = st.path ∧
      ∃ g : DbFile,
        (decryptDatabase o st fs).2.2 st.path = some g ∧
        g.userVersion = f.userVersion) :=
  ⟨updateSavedCipherParameters_preserves_uv o hexKey newParams st fs f hf,
    encryptDatabase_preserves_uv o newHexKey st fs f hf,
    decryptDatabase_preserves_uv o st fs f hf⟩

/-- C7 witness: on a concrete store whose file has `user_version` 7, each
of the three export-and-swap operations succeeds with every engine call
succeeding, and the file at the store's path afterwards still has
`user_version` 7. -/
theorem c7_user_version_preserved_witness :
    (updateSavedCipherParameters allOkOracle "newkey" .p4_0 c7TestSt c7TestFs).1 = true ∧
    (∃ g : DbFile,
      (updateSavedCipherParameters allOkOracle "newkey" .p4_0 c7TestSt c7TestFs).2.2 "db" =
        some g ∧ g.userVersion = 7) ∧
    (encryptDatabase allOkOracle "newkey" c7TestSt c7TestFs).1 = true ∧
    (∃ g : DbFile,
      (encryptDatabase allOkOracle "newkey" c7TestSt c7TestFs).2.2 "db" = some g ∧
        g.userVersion = 7) ∧
    (decryptDatabase allOkOracle c7TestSt c7TestFs).1 = true ∧
    (∃ g : DbFile,
      (decryptDatabase allOkOracle c7TestSt c7TestFs).2.2 "db" = some g ∧
        g.userVersion = 7) := by
  have h := c7_user_version_preserved allOkOracle c7TestSt c7TestFs ⟨7, "oldkey", 5⟩
    "newkey" "newkey" .p4_0 (by decide)
  have h1 := h.1 (by decide)
  have h2 := h.2.1 (by decide)
  have h3 := h.2.2 (by decide)
  exact ⟨by decide, h1.2, by decide, h2.2, by decide, h3.2⟩

theorem deriveKeyLegacy_ne_empty {password : String} (h : password ≠ "") :
    deriveKeyLegacy password ≠ "" := by
  unfold deriveKeyLegacy
  rw [if_neg h]
  apply hexEncode_ne_empty
  intro hnil
  have hlen := derivedKeyBytes_length (qStringUtf8 password) expandConstant
  rw [hnil] at hlen
  simp at hlen

/-- C10 counterexample: in a run where the salted open fails, the `.bak`
backup copy succeeds, the legacy open succeeds and the upgrade attempt
(`setPassword`, taking the in-place `PRAGMA rekey` path) fails, the
constructor leaves the store CLOSED — not, as the claim states, open and
usable under the legacy key: `setPassword` calls `close()` on the rekey
failure and the constructor only logs the failure without reopening. -/
theorem c10_counterexample :
    (rawDatabaseCtor c10Oracle "db" "p" c10Salt c10Fs).upgradeAttempted = true ∧
    (rawDatabaseCtor c10Oracle "db" "p" c10Salt c10Fs).st.currentHexKey =
      deriveKeyLegacy "p" ∧
    (rawDatabaseCtor c10Oracle "db" "p" c10Salt c10Fs).st.sqliteOpen = false := by
  exact ⟨by decide, by decide, by decide⟩

/-- C10 amended: the opportunistic rewrite onto the salted key scheme is
attempted only when the on-disk `.bak` backup copy succeeded; if the
backup copy fails (with the legacy open succeeding), the store is opened
under the legacy key with no upgrade attempt; but a failure of the upgrade
attempt itself (the rekey pragma failing) leaves the store CLOSED with
`currentHexKey` still the legacy key — the constructor merely logs the
failed attempt and does not reopen the store. -/
theorem c10_amended_legacy_fallback (o : LifeOracle) (path password : String)
    (salt : List Nat) (fs : FileSystem) :
    ((rawDatabaseCtor o path password salt fs).upgradeAttempted = true →
      (openDb o path (deriveKey password salt) fs).1 = false ∧
      (fsCopy (openDb o path (deriveKey password salt) fs).2 path (path ++ ".bak")).1 =
        true) ∧
    ((openDb o path (deriveKey password salt) fs).1 = false →
      (fsCopy (openDb o path (deriveKey password salt) fs).2 path (path ++ ".bak")).1 =
        false →
      (openDb o path (deriveKeyLegacy password)
        (fsCopy (openDb o path (deriveKey password salt) fs).2 path (path ++ ".bak")).2).1 =
        true →
      (rawDatabaseCtor o path password salt fs).st.sqliteOpen = true ∧
      (rawDatabaseCtor o path password salt fs).st.currentHexKey =
        deriveKeyLegacy password ∧
      (rawDatabaseCtor o path password salt fs).upgradeAttempted = false) ∧
    ((openDb o path (deriveKey password salt) fs).1 = false →
      (fsCopy (openDb o path (deriveKey password salt) fs).2 path (path ++ ".bak")).1 =
        true →
      (openDb o path (deriveKeyLegacy password)
        (fsCopy (openDb o path (deriveKey password salt) fs).2 path (path ++ ".bak")).2).1 =
        true →
      password ≠ "" → o.rekeyOk = false →
      (rawDatabaseCtor o path password salt fs).st.sqliteOpen = false ∧
      (rawDatabaseCtor o path password salt fs).st.currentHexKey =
        deriveKeyLegacy password ∧
      (rawDatabaseCtor o path password salt fs).upgradeAttempted = true) := by
  refine ⟨?_, ?_, ?_⟩
  · intro h
    cases hr1 : (openDb o path (deriveKey password salt) fs).1 with
    | true => simp [rawDatabaseCtor, hr1] at h
    | false =>
      refine ⟨rfl, ?_⟩
      cases hrc : (fsCopy (openDb o path (deriveKey password salt) fs).2 path
          (path ++ ".bak")).1 with
      | true => rfl
      | false =>
        exfalso
        cases hr2 : (openDb o path (deriveKeyLegacy password)
            (fsCopy (openDb o path (deriveKey password salt) fs).2 path
              (path ++ ".bak")).2).1 with
        | true => simp [rawDatabaseCtor, hr1, hrc, hr2] at h
        | false => simp [rawDatabaseCtor, hr1, hrc, hr2] at h
  · intro h1 h2 h3
    simp [rawDatabaseCtor, h1, h2, h3]
  · intro h1 h2 h3 hpw hrk
    have hlk : deriveKeyLegacy password ≠ "" := deriveKeyLegacy_ne_empty hpw
    simp [rawDatabaseCtor, h1, h2, h3, setPassword, hpw, hlk, hrk, closeDb]

/-- C10 amended witness: with the concrete fallback oracle, a pre-existing
`.bak` makes the backup copy fail and the store opens under the legacy key
with no upgrade attempt; without the `.bak` the upgrade is attempted, its
rekey pragma fails, and the store ends closed with the legacy key. -/
theorem c10_amended_legacy_fallback_witness :
    ((rawDatabaseCtor c10Oracle "db" "p" c10Salt c10FsBak).st.sqliteOpen = true ∧
      (rawDatabaseCtor c10Oracle "db" "p" c10Salt c10FsBak).st.currentHexKey =
        deriveKeyLegacy "p" ∧
      (rawDatabaseCtor c10Oracle "db" "p" c10Salt c10FsBak).upgradeAttempted = false) ∧
    ((rawDatabaseCtor c10Oracle "db" "p" c10Salt c10Fs).st.sqliteOpen = false ∧
      (rawDatabaseCtor c10Oracle "db" "p" c10Salt c10Fs).st.currentHexKey =
        deriveKeyLegacy "p" ∧
      (rawDatabaseCtor c10Oracle "db" "p" c10Salt c10Fs).upgradeAttempted = true) := by
  have hb := (c10_amended_legacy_fallback c10Oracle "db" "p" c10Salt c10FsBak).2.1
    (by decide) (by decide) (by decide)
  have hc := (c10_amended_legacy_fallback c10Oracle "db" "p" c10Salt c10Fs).2.2
    (by decide) (by decide) (by decide) (by decide) rfl
  exact ⟨hb, hc⟩
